import Mathlib

/-!
# Verification of the hex-map terrain generator core

A shallow embedding, in Lean 4, of the numeric core of the `hex-map`
repository (Go): coordinate algebra (`pkg/hex/coordinate.go`), grid and
topology (`pkg/hex`), Diamond–Square and multi-octave noise
(`internal/noise`), hypsometric shaping and tile assembly
(`pkg/terrain/generator.go`, `pkg/terrain`).

Conventions of the embedding:
* Go `int` is modelled as `Int`.  Go integer division truncates toward
  zero; every division performed by the embedded code is exact (the
  dividend is even), so Lean's `/` on `Int` agrees with Go there and is
  used directly.  Go `%` on `int` truncates toward zero and is modelled
  by `Int.tmod`.  Go `n & 1` on two's-complement integers is the parity
  bit and is modelled by an `if` on `n % 2`.
* Go `float64` arithmetic is modelled by exact arithmetic: `ℚ` wherever
  the computations stay rational (coordinate rounding, noise synthesis,
  threshold selection) and `ℝ` where the source computes genuinely
  irrational values (`math.Pow(_, 2.5)` in the hypsometric curve).
* Fallible Go code returns `Option`/`Except`; a Go `panic` is modelled
  by the dedicated error type `GoPanic`, kept distinct from ordinary
  returned `error` values (`TerrainError`) so that the failure *channel*
  of the source is visible in the embedding.
-/

/-! ## Coordinate algebra (`pkg/hex/coordinate.go`) -/

/-- `AxialCoord` from `coordinate.go`: a flat-top hex named by axial
coordinates `(q, r)`. -/
structure AxialCoord where
  q : Int
  r : Int
deriving DecidableEq, Repr

/-- Go `n & 1` for a two's-complement integer: `1` when `n` is odd,
`0` when `n` is even (this holds for negative `n` as well). -/
def and1 (n : Int) : Int := if n % 2 = 0 then 0 else 1

/-- `ToOffset` from `coordinate.go` (even-q, flat-top):
`col = q`, `row = r + (q + (q&1))/2`.  The dividend `q + (q&1)` is even,
so Go's truncating division and Lean's `/` agree. -/
def ToOffset (c : AxialCoord) : Int × Int :=
  (c.q, c.r + (c.q + and1 c.q) / 2)

/-- `OffsetToAxial` from `coordinate.go`:
`q = col`, `r = row - (col + (col&1))/2`. -/
def OffsetToAxial (col row : Int) : AxialCoord :=
  ⟨col, row - (col + and1 col) / 2⟩

/-- `abs` from `coordinate.go`: `if x < 0 { return -x }; return x`. -/
def goAbs (x : Int) : Int := if x < 0 then -x else x

/-- `hexDistance` from `coordinate.go`:
`(|aq-bq| + |aq+ar-bq-br| + |ar-br|) / 2`.  The dividend is even. -/
def hexDistance (a b : AxialCoord) : Int :=
  (goAbs (a.q - b.q) + goAbs (a.q + a.r - b.q - b.r) + goAbs (a.r - b.r)) / 2

/-- Go `math.Round` (half away from zero), on exact rationals.
(`Rat.floor` is the executable floor of the core library.) -/
def goRound (x : ℚ) : Int := if 0 ≤ x then (x + 1/2).floor else -((-x + 1/2).floor)

/-- `axialRound` from `coordinate.go`: round each of `(q, r, s = -q-r)`
to the nearest integer, then recompute the coordinate with the largest
rounding error from the other two. -/
def axialRound (q r : ℚ) : AxialCoord :=
  let s : ℚ := -q - r
  let rq := goRound q
  let rr := goRound r
  let rs := goRound s
  let qDiff := |(rq : ℚ) - q|
  let rDiff := |(rr : ℚ) - r|
  let sDiff := |(rs : ℚ) - s|
  if qDiff > rDiff ∧ qDiff > sDiff then ⟨-rr - rs, rr⟩
  else if rDiff > sDiff then ⟨rq, -rq - rs⟩
  else ⟨rq, rr⟩

/-! ## Grid and topology (`pkg/hex`, grid part) -/

/-- `Topology` from the grid file: `Region` (bounded) or `World`
(toroidal). -/
inductive Topology where
  | Region
  | World
deriving DecidableEq, Repr

/-- `GridConfig`: width, height and topology.  The Go `Grid` also owns a
dense cell array and a `coordMap`; both are determined by the config
(the map is pre-populated from every `(col, row)` in range), so the
embedding derives them from the config. -/
structure GridConfig where
  width : Int
  height : Int
  topology : Topology
deriving DecidableEq, Repr

/-- `AllCoords` from the grid file: enumerate `(col, row)` row-major
(`row` outer, `col` inner) and convert each to axial. -/
def AllCoords (g : GridConfig) : List AxialCoord :=
  (List.range g.height.toNat).flatMap fun row : ℕ =>
    (List.range g.width.toNat).map fun col : ℕ =>
      OffsetToAxial (col : Int) (row : Int)

/-- Membership in the Go `coordMap`: `NewGrid` inserts exactly the
coordinates `OffsetToAxial col row` for `0 ≤ col < width`,
`0 ≤ row < height`. -/
def coordMapContains (g : GridConfig) (c : AxialCoord) : Bool :=
  (AllCoords g).contains c

/-- Go `((x % n) + n) % n` with truncating `%`: the floored-modulus
idiom used by `WrapCoord`. -/
def goMod (a n : Int) : Int := ((a.tmod n) + n).tmod n

/-- `WrapCoord` from the grid file: identity unless the topology is
`World`; otherwise reduce the offset coordinates modulo the grid
dimensions and convert back to axial. -/
def WrapCoord (g : GridConfig) (c : AxialCoord) : AxialCoord :=
  if g.topology ≠ Topology.World then c
  else
    let o := ToOffset c
    OffsetToAxial (goMod o.1 g.width) (goMod o.2 g.height)

/-- `IsValid` from the grid file: for `World` check the wrapped
coordinate against the map, for `Region` check the coordinate itself. -/
def IsValid (g : GridConfig) (c : AxialCoord) : Bool :=
  if g.topology = Topology.World then coordMapContains g (WrapCoord g c)
  else coordMapContains g c

/-- `hexDirections` from the grid file, in source order. -/
def hexDirections : List AxialCoord :=
  [⟨1, 0⟩, ⟨1, -1⟩, ⟨0, -1⟩, ⟨-1, 0⟩, ⟨-1, 1⟩, ⟨0, 1⟩]

/-- `Neighbors` from the grid file: for each direction, `World` wraps
and always includes the neighbor, `Region` includes it only when
valid. -/
def Neighbors (c : AxialCoord) (g : GridConfig) : List AxialCoord :=
  hexDirections.foldl
    (fun acc d =>
      let neighbor : AxialCoord := ⟨c.q + d.q, c.r + d.r⟩
      if g.topology = Topology.World then acc ++ [WrapCoord g neighbor]
      else if IsValid g neighbor then acc ++ [neighbor]
      else acc)
    []

/-- The nine shift pairs `(dq, dr) ∈ {-1,0,1}²` in the iteration order
of the Go nested loops (`dq` outer, `dr` inner). -/
def shiftPairs : List (Int × Int) :=
  [(-1, -1), (-1, 0), (-1, 1), (0, -1), (0, 0), (0, 1), (1, -1), (1, 0), (1, 1)]

/-- `DistanceTo` from `coordinate.go`: plain `hexDistance` for `Region`;
for `World` the minimum of `hexDistance` to the nine copies of `other`
shifted by `(dq·width, dr·height)` **directly in axial coordinates**. -/
def DistanceTo (c other : AxialCoord) (g : GridConfig) : Int :=
  if g.topology = Topology.Region then hexDistance c other
  else
    shiftPairs.foldl
      (fun minDist (d : Int × Int) =>
        let wrappedOther : AxialCoord :=
          ⟨other.q + d.1 * g.width, other.r + d.2 * g.height⟩
        let dist := hexDistance c wrappedOther
        if dist < minDist then dist else minDist)
      (hexDistance c other)

/-- `hexPathRegion` from `coordinate.go`: endpoints exact, interior
points by linear interpolation at `t = i/distance` followed by
`axialRound`. -/
def hexPathRegion (frm tgt : AxialCoord) : List AxialCoord :=
  let distance := hexDistance frm tgt
  if distance = 0 then [frm]
  else
    [frm] ++
      ((List.range (distance.toNat - 1)).map fun i0 : ℕ =>
        let i : Int := (i0 : Int) + 1
        let t : ℚ := (i : ℚ) / (distance : ℚ)
        axialRound ((frm.q : ℚ) * (1 - t) + (tgt.q : ℚ) * t)
          ((frm.r : ℚ) * (1 - t) + (tgt.r : ℚ) * t)) ++
      [tgt]

/-- `ShortestPath` from `coordinate.go`: `Region` paths directly; for
`World`, pick the copy of `to` shifted in **offset** space that
minimises `hexDistance`, path to it, then wrap every point. -/
def ShortestPath (g : GridConfig) (frm tgt : AxialCoord) : List AxialCoord :=
  if g.topology = Topology.Region then hexPathRegion frm tgt
  else
    let best :=
      shiftPairs.foldl
        (fun (acc : Int × AxialCoord) (d : Int × Int) =>
          let o := ToOffset tgt
          let wrappedTo := OffsetToAxial (o.1 + d.1 * g.width) (o.2 + d.2 * g.height)
          let dist := hexDistance frm wrappedTo
          if dist < acc.1 then (dist, wrappedTo) else acc)
        (hexDistance frm tgt, tgt)
    (hexPathRegion frm best.2).map (WrapCoord g)


/-- The interpolation-and-round expression from `hexPathRegion`'s loop
body at parameter `t = i/d`, as a function of the step index `i` (so
that the whole path, endpoints included, can be described uniformly). -/
def lerpPoint (frm tgt : AxialCoord) (d : Int) (i : Int) : AxialCoord :=
  let t : ℚ := (i : ℚ) / (d : ℚ)
  axialRound ((frm.q : ℚ) * (1 - t) + (tgt.q : ℚ) * t)
    ((frm.r : ℚ) * (1 - t) + (tgt.r : ℚ) * t)

/-- Modelled from the spec: the *claimed* World distance of §4.2 — the
minimum of `hexDistance` over the nine copies of `other` shifted by
`(dq·W, dr·H)` **in offset space** (convert to offset, shift, convert
back).  This is the formula the specification states for `DistanceTo`;
it is to be compared against the source's `DistanceTo`, which shifts in
axial space. -/
def specOffsetWorldDistance (c other : AxialCoord) (g : GridConfig) : Int :=
  shiftPairs.foldl
    (fun minDist (d : Int × Int) =>
      let o := ToOffset other
      let wrappedOther := OffsetToAxial (o.1 + d.1 * g.width) (o.2 + d.2 * g.height)
      min minDist (hexDistance c wrappedOther))
    (hexDistance c other)

/-! ## Noise synthesis (`internal/noise`) -/

/-- A Go `panic`: exception-like control flow, distinct from an
ordinary returned `error`.  `DiamondSquare` delivers its invalid-size
failure through this channel, and the source's own test
`TestDiamondSquareInvalidSize` `recover`s it. -/
structure GoPanic where
  message : String
deriving DecidableEq, Repr

/-- `isPowerOfTwoPlusOne` from the noise file: `n ≥ 3` and `n − 1` a
power of two (`m & (m−1) == 0`, taken on `Nat` since `m ≥ 2` here). -/
def isPowerOfTwoPlusOne (n : Int) : Bool :=
  if n < 3 then false
  else
    let m := n - 1
    decide (0 < m) && ((m.toNat &&& (m.toNat - 1)) == 0)

/-- The `for n+1 < size { n *= 2 }` loop of `nextPowerOfTwoPlusOne`. -/
def nextLoop (size : Int) (n : Nat) (hn : 0 < n) : Nat :=
  if (n : Int) + 1 < size then nextLoop size (n * 2) (by omega)
  else n
termination_by (size - (n : Int)).toNat
decreasing_by
  simp_wf
  omega

/-- `nextPowerOfTwoPlusOne` from the noise file. -/
def nextPowerOfTwoPlusOne (size : Int) : Int :=
  if size ≤ 1 then 3
  else if isPowerOfTwoPlusOne size then size
  else (nextLoop size 2 (by norm_num) : Int) + 1

/-- `max` from the noise file. -/
def goMax (a b : Int) : Int := if a > b then a else b

/-- Modelled from the spec: §4.3's deterministic "64-bit seedable
generator" (`rand.New(rand.NewSource(seed))` in the source; the
generator itself is Go library code outside this repository).  The
embedding retains exactly what the specification relies on: the state
is a pure function of the seed and each draw is a value in `[0, 1)`
paired with the successor state.  The transition is a 64-bit linear
congruential step. -/
def randStateOfSeed (seed : Int) : Nat := (seed.emod (2 ^ 64)).toNat

/-- One step of the modelled generator. -/
def randStep (s : Nat) : Nat :=
  (s * 6364136223846793005 + 1442695040888963407) % 2 ^ 64

/-- `rng.Float64()`: a deterministic draw in `[0, 1)` plus the new
state. -/
def randFloat64 (s : Nat) : ℚ × Nat :=
  let s2 := randStep s
  ((s2 : ℚ) / 2 ^ 64, s2)

/-- `rng.Float64()*2 - 1`: a deterministic draw in `[-1, 1)`. -/
def randUnit (s : Nat) : ℚ × Nat :=
  let f := randFloat64 s
  (f.1 * 2 - 1, f.2)

/-- Read `heightmap[y][x]` (out-of-range reads yield `0`; the algorithm
only indexes in range). -/
def getCell (hm : Array (Array ℚ)) (y x : Nat) : ℚ := (hm.getD y #[]).getD x 0

/-- Write `heightmap[y][x] = v` (out-of-range writes are dropped; the
algorithm only indexes in range). -/
def setCell (hm : Array (Array ℚ)) (y x : Nat) (v : ℚ) : Array (Array ℚ) :=
  hm.setD y ((hm.getD y #[]).setD x v)

/-- `diamondAverage` from the noise file: average the up/down/left/right
neighbours at distance `halfStep`, sending an index `< 0` to `size−1`
and an index `≥ size` to `0`, then counting those in range. -/
def diamondAverage (hm : Array (Array ℚ)) (x y halfStep size : Int) : ℚ :=
  Id.run do
    let mut count : Int := 0
    let mut sum : ℚ := 0
    let neighbors : List (Int × Int) :=
      [(x, y - halfStep), (x, y + halfStep), (x - halfStep, y), (x + halfStep, y)]
    for nb in neighbors do
      let mut nx := nb.1
      let mut ny := nb.2
      if nx < 0 then
        nx := size - 1
      else if nx ≥ size then
        nx := 0
      if ny < 0 then
        ny := size - 1
      else if ny ≥ size then
        ny := 0
      if 0 ≤ nx ∧ nx < size ∧ 0 ≤ ny ∧ ny < size then
        sum := sum + getCell hm ny.toNat nx.toNat
        count := count + 1
    if count > 0 then
      return sum / (count : ℚ)
    return 0

/-- One round of Diamond–Square at a given `stepSize`: the diamond step
(row-major) then the square step (row-major), threading the heightmap
and the generator state in the order the source consumes them. -/
def dsRound (size stepSize : Nat) (scale : ℚ)
    (st : Array (Array ℚ) × Nat) : Array (Array ℚ) × Nat :=
  Id.run do
    let halfStep := stepSize / 2
    let mut hm := st.1
    let mut rng := st.2
    for y in [halfStep:size:stepSize] do
      for x in [halfStep:size:stepSize] do
        let avg := (getCell hm (y - halfStep) (x - halfStep) +
          getCell hm (y - halfStep) (x + halfStep) +
          getCell hm (y + halfStep) (x - halfStep) +
          getCell hm (y + halfStep) (x + halfStep)) / 4
        let u := randUnit rng
        rng := u.2
        hm := setCell hm y x (avg + u.1 * scale)
    for y in [0:size:halfStep] do
      for x in [(y + halfStep) % stepSize:size:stepSize] do
        let avg := diamondAverage hm (x : Int) (y : Int) (halfStep : Int) (size : Int)
        let u := randUnit rng
        rng := u.2
        hm := setCell hm y x (avg + u.1 * scale)
    return (hm, rng)

/-- The `for stepSize > 1` outer loop of `DiamondSquare`. -/
def dsLoop (size : Nat) (roughness : ℚ) (stepSize : Nat) (scale : ℚ)
    (st : Array (Array ℚ) × Nat) : Array (Array ℚ) × Nat :=
  if stepSize > 1 then
    dsLoop size roughness (stepSize / 2) (scale * roughness)
      (dsRound size stepSize scale st)
  else st
termination_by stepSize

/-- The `DiamondSquare` body (after the size check): zeroed `size×size`
grid, four corner draws in source order, then the rounds with
`stepSize = size − 1` and `scale = roughness`. -/
def diamondSquareRun (size : Nat) (roughness : ℚ) (seed : Int) :
    Array (Array ℚ) :=
  Id.run do
    let mut rng := randStateOfSeed seed
    let mut hm : Array (Array ℚ) := Array.mkArray size (Array.mkArray size 0)
    let u0 := randUnit rng
    hm := setCell hm 0 0 u0.1
    rng := u0.2
    let u1 := randUnit rng
    hm := setCell hm 0 (size - 1) u1.1
    rng := u1.2
    let u2 := randUnit rng
    hm := setCell hm (size - 1) 0 u2.1
    rng := u2.2
    let u3 := randUnit rng
    hm := setCell hm (size - 1) (size - 1) u3.1
    rng := u3.2
    return (dsLoop size roughness (size - 1) roughness (hm, rng)).1

/-- `DiamondSquare` from the noise file.  The Go function *panics* on a
size that is not `2^k + 1`; the panic is modelled as `Except.error`
carrying a `GoPanic` with the Go panic message. -/
def DiamondSquare (size : Int) (roughness : ℚ) (seed : Int) :
    Except GoPanic (Array (Array ℚ)) :=
  if !isPowerOfTwoPlusOne size then
    .error ⟨"DiamondSquare: size must be (2^n + 1), e.g., 129, 257, 513"⟩
  else
    .ok (diamondSquareRun size.toNat roughness seed)

/-- Go `int(f)` on a float: truncation toward zero. -/
def goTrunc (q : ℚ) : Int := if q < 0 then -((-q).floor) else q.floor

/-- `MultiOctaveNoise` from the noise file.  `noiseSize` always passes
the `DiamondSquare` size check (see `nextPowerOfTwoPlusOne_valid`), so
the `.getD` default is never used. -/
def MultiOctaveNoise (width height octaves : Int)
    (persistence lacunarity scale : ℚ) (seed : Int) : List (List ℚ) :=
  Id.run do
    let noiseSize := nextPowerOfTwoPlusOne (goMax width height)
    let mut result : Array (Array ℚ) :=
      Array.mkArray height.toNat (Array.mkArray width.toNat 0)
    let mut amplitude : ℚ := 1
    let mut frequency : ℚ := scale
    let mut maxValue : ℚ := 0
    for octave in [0:octaves.toNat] do
      let octaveSeed := seed + (octave : Int) * 1000
      let octaveNoise := (DiamondSquare noiseSize (1/2) octaveSeed).toOption.getD #[]
      for y in [0:height.toNat] do
        for x in [0:width.toNat] do
          let mut noiseX := (goTrunc ((x : ℚ) * frequency)).tmod noiseSize
          let mut noiseY := (goTrunc ((y : ℚ) * frequency)).tmod noiseSize
          if noiseX < 0 then
            noiseX := noiseX + noiseSize
          if noiseY < 0 then
            noiseY := noiseY + noiseSize
          result := setCell result y x
            (getCell result y x +
              getCell octaveNoise noiseY.toNat noiseX.toNat * amplitude)
      maxValue := maxValue + amplitude
      amplitude := amplitude * persistence
      frequency := frequency * lacunarity
    for y in [0:height.toNat] do
      for x in [0:width.toNat] do
        result := setCell result y x (getCell result y x / maxValue)
    return result.toList.map Array.toList

/-! ## Terrain (`pkg/terrain`) -/

/-- `NoiseParameters` from the terrain types file. -/
structure NoiseParameters where
  Octaves : Int
  Persistence : ℚ
  Lacunarity : ℚ
  Scale : ℚ
  HurstExp : ℚ
deriving DecidableEq, Repr

/-- `TerrainConfig` from the terrain types file (float64 fields are
modelled by exact rationals). -/
structure TerrainConfig where
  Seed : Int
  SeaLevel : ℚ
  LandRatio : ℚ
  NoiseParams : NoiseParameters
deriving DecidableEq, Repr

/-- `TerrainError` from the terrain types file: an ordinary returned Go
`error` value. -/
structure TerrainError where
  Message : String
deriving DecidableEq, Repr

/-- `TerrainConfig.Validate` from the terrain types file: the first
failing rule produces the error; `nil` becomes `none`. -/
def TerrainConfig.Validate (tc : TerrainConfig) : Option TerrainError :=
  if tc.LandRatio < 0 ∨ tc.LandRatio > 1 then
    some ⟨"land_ratio must be between 0.0 and 1.0"⟩
  else if tc.NoiseParams.Octaves < 1 ∨ tc.NoiseParams.Octaves > 10 then
    some ⟨"octaves must be between 1 and 10"⟩
  else if tc.NoiseParams.Persistence ≤ 0 ∨ tc.NoiseParams.Persistence > 1 then
    some ⟨"persistence must be between 0.0 and 1.0"⟩
  else if tc.NoiseParams.Lacunarity ≤ 1 then
    some ⟨"lacunarity must be greater than 1.0"⟩
  else if tc.NoiseParams.HurstExp < 0 ∨ tc.NoiseParams.HurstExp > 1 then
    some ⟨"hurst_exp must be between 0.0 and 1.0"⟩
  else none

/-- `HexTile` from the terrain types file.  After hypsometric shaping
elevations are real numbers. -/
structure HexTile where
  Coordinates : AxialCoord
  Elevation : ℝ
  IsLand : Bool
  DistanceToWater : ℝ

noncomputable instance : Inhabited HexTile :=
  ⟨⟨⟨0, 0⟩, 0, false, 0⟩⟩

/-- `ClassifyLandWater` from the tile file:
`IsLand ← Elevation > seaLevel`. -/
noncomputable def ClassifyLandWater (ht : HexTile) (seaLevel : ℝ) : HexTile :=
  { ht with IsLand := decide (ht.Elevation > seaLevel) }

/-- The flattening step of `ApplyHypsometricCurve`: rows appended in
order. -/
def flattenElevations (heightmap : List (List ℚ)) : List ℚ := heightmap.flatten

/-- `sort.Float64s`: ascending sort. -/
def sortElevations (l : List ℚ) : List ℚ := l.mergeSort (fun a b => a ≤ b)

/-- The sea-level index of `ApplyHypsometricCurve`:
`int(float64(N) · (1 − L))`, clamped to `N − 1` when out of range. -/
def seaLevelIndex (n : Nat) (targetLandRatio : ℚ) : Int :=
  let i := goTrunc ((n : ℚ) * (1 - targetLandRatio))
  if i ≥ (n : Int) then (n : Int) - 1 else i

/-- The working sea level `T` of `ApplyHypsometricCurve`: the sorted
flattened elevation at the sea-level index. -/
def seaLevelThreshold (heightmap : List (List ℚ)) (L : ℚ) : ℚ :=
  (sortElevations (flattenElevations heightmap)).getD
    (seaLevelIndex (flattenElevations heightmap).length L).toNat 0

/-- The per-cell transform of `ApplyHypsometricCurve` at threshold `T`:
cubic ocean curve below `T`, power-2.5 land curve above (`math.Pow` is
real exponentiation). -/
noncomputable def hypsoTransform (T v : ℚ) : ℝ :=
  if v ≤ T then
    let ratio : ℚ := v / T
    let ratio := if ratio < 0 then 0 else ratio
    let depth : ℝ := (ratio : ℝ) ^ (3 : ℝ) * 6000
    (-depth)
  else
    let ratio : ℚ := (v - T) / (1 - T)
    let ratio := if ratio > 1 then 1 else ratio
    (ratio : ℝ) ^ (2.5 : ℝ) * 8800

/-- `ApplyHypsometricCurve` from `generator.go`: a no-op (up to the real
embedding of the values) for `L ∉ (0, 1)`, otherwise the rank-based
threshold followed by the per-cell transform. -/
noncomputable def ApplyHypsometricCurve (heightmap : List (List ℚ))
    (targetLandRatio : ℚ) : List (List ℝ) :=
  if targetLandRatio ≤ 0 ∨ targetLandRatio ≥ 1 then
    heightmap.map fun row => row.map fun v => (v : ℝ)
  else
    let T := seaLevelThreshold heightmap targetLandRatio
    heightmap.map fun row => row.map fun v => hypsoTransform T v

/-- `HeightmapToHexTiles` from `generator.go`: sample the heightmap at
the offset coordinates modulo its dimensions (floored for negatives),
then classify. -/
noncomputable def HeightmapToHexTiles (heightmap : List (List ℝ))
    (g : GridConfig) (seaLevel : ℝ) : List HexTile :=
  let coords := AllCoords g
  let height : Int := (heightmap.length : Int)
  let width : Int :=
    if heightmap.length > 0 then ((heightmap.headD []).length : Int) else 0
  coords.map fun coord =>
    let o := ToOffset coord
    let x0 := o.1.tmod width
    let y0 := o.2.tmod height
    let x := if x0 < 0 then x0 + width else x0
    let y := if y0 < 0 then y0 + height else y0
    let elevation := (heightmap.getD y.toNat []).getD x.toNat 0
    ClassifyLandWater
      { Coordinates := coord, Elevation := elevation, IsLand := false,
        DistanceToWater := 0 } seaLevel

/-- `calculateGridDimensions` from `generator.go`: offset bounding box,
folded from the `math.MaxInt32`/`math.MinInt32` sentinels. -/
def calculateGridDimensions (coords : List AxialCoord) : Int × Int :=
  if coords.length = 0 then (0, 0)
  else
    let st := coords.foldl
      (fun (acc : Int × Int × Int × Int) coord =>
        let o := ToOffset coord
        let minCol := if o.1 < acc.1 then o.1 else acc.1
        let maxCol := if o.1 > acc.2.1 then o.1 else acc.2.1
        let minRow := if o.2 < acc.2.2.1 then o.2 else acc.2.2.1
        let maxRow := if o.2 > acc.2.2.2 then o.2 else acc.2.2.2
        (minCol, maxCol, minRow, maxRow))
      (2147483647, -2147483648, 2147483647, -2147483648)
    (st.2.1 - st.1 + 1, st.2.2.2 - st.2.2.1 + 1)

/-- `GenerateHeightmap` from `generator.go`. -/
def GenerateHeightmap (width height : Int) (params : NoiseParameters)
    (seed : Int) : List (List ℚ) :=
  MultiOctaveNoise width height params.Octaves params.Persistence
    params.Lacunarity params.Scale seed

/-- `GenerateTerrain` from `generator.go`: validate the configuration,
reject the empty grid, synthesise, shape, assemble. -/
noncomputable def GenerateTerrain (g : GridConfig) (config : TerrainConfig) :
    Except TerrainError (List HexTile) :=
  match config.Validate with
  | some e => .error e
  | none =>
    let coords := AllCoords g
    if coords.length = 0 then .error ⟨"empty grid provided"⟩
    else
      let wh := calculateGridDimensions coords
      let heightmap := GenerateHeightmap wh.1 wh.2 config.NoiseParams config.Seed
      let heightmap2 := ApplyHypsometricCurve heightmap config.LandRatio
      .ok (HeightmapToHexTiles heightmap2 g (config.SeaLevel : ℝ))

/-- Field-wise identity of two generation results: both fail with the
same error, or both succeed with tile sequences of the same length that
agree at every position in coordinates, elevation, land flag and
distance-to-water (C1's "identical tile sequences"). -/
noncomputable def identicalTileSeqs : Except TerrainError (List HexTile) →
    Except TerrainError (List HexTile) → Prop
  | .error e1, .error e2 => e1 = e2
  | .ok t1, .ok t2 =>
      t1.length = t2.length ∧
      ∀ i : Nat,
        (t1.getD i default).Coordinates = (t2.getD i default).Coordinates ∧
        (t1.getD i default).Elevation = (t2.getD i default).Elevation ∧
        (t1.getD i default).IsLand = (t2.getD i default).IsLand ∧
        (t1.getD i default).DistanceToWater = (t2.getD i default).DistanceToWater
  | _, _ => False

/-- A property of every tile of a generation result (trivially true on
the failure branch). -/
def exceptTilesAll (e : Except TerrainError (List HexTile))
    (p : HexTile → Prop) : Prop :=
  match e with
  | .error _ => True
  | .ok tiles => tiles.Forall p

/-- The number of strictly positive cells of a shaped heightmap. -/
noncomputable def landCount (hm : List (List ℝ)) : ℕ :=
  (hm.flatten.filter fun v => decide (0 < v)).length

-- THEOREM_SECTION_MARKER

theorem and1_even (n : Int) (h : n % 2 = 0) : and1 n = 0 := by simp [and1, h]

theorem ToOffset_OffsetToAxial (col row : Int) :
    ToOffset (OffsetToAxial col row) = (col, row) := by
  simp only [ToOffset, OffsetToAxial, and1]
  congr 1
  split <;> omega

theorem OffsetToAxial_ToOffset (c : AxialCoord) :
    OffsetToAxial (ToOffset c).1 (ToOffset c).2 = c := by
  simp only [ToOffset, OffsetToAxial, and1]
  split <;> simp


/-! ### Facts about rounding -/

theorem rat_floor_eq (q : ℚ) : q.floor = ⌊q⌋ := by
  rw [Rat.floor_def', Rat.floor_def]

theorem goRound_intCast (n : Int) : goRound (n : ℚ) = n := by
  unfold goRound
  rcases le_or_lt 0 (n : ℚ) with h | h
  · rw [if_pos h, rat_floor_eq, Int.floor_int_add]
    norm_num
  · rw [if_neg (not_le.mpr h),
      show -(n : ℚ) + 1/2 = ((-n : Int) : ℚ) + (1/2 : ℚ) by push_cast; ring,
      rat_floor_eq, Int.floor_int_add]
    norm_num

theorem goRound_err (x : ℚ) : |(goRound x : ℚ) - x| ≤ 1/2 := by
  unfold goRound
  rcases le_or_lt 0 x with h | h
  · rw [if_pos h, rat_floor_eq]
    have h1 := Int.floor_le (x + 1/2)
    have h2 := Int.lt_floor_add_one (x + 1/2)
    rw [abs_le]
    constructor <;> linarith
  · rw [if_neg (not_le.mpr h), rat_floor_eq]
    have h1 := Int.floor_le (-x + 1/2)
    have h2 := Int.lt_floor_add_one (-x + 1/2)
    rw [abs_le]
    push_cast
    constructor <;> linarith

/-- Two integers whose real distance is at most `1/2` are equal. -/
theorem int_close_eq (m n : Int) (h : |(m : ℚ) - (n : ℚ)| ≤ 1/2) : m = n := by
  by_contra hne
  have h1 : 1 ≤ |m - n| := by
    rcases abs_cases (m - n) with ⟨he, hsgn⟩ | ⟨he, hsgn⟩ <;> omega
  have h2 : (1 : ℚ) ≤ |(m : ℚ) - (n : ℚ)| := by
    calc (1 : ℚ) ≤ ((|m - n| : Int) : ℚ) := by exact_mod_cast h1
    _ = |(m : ℚ) - (n : ℚ)| := by push_cast [Int.cast_abs]; ring_nf
  linarith


/-- Rounding repair analysis: whenever at least one of the three cube
coordinates rounds exactly, every coordinate of the `axialRound` result
is within `1/2` of the corresponding exact coordinate (the repaired
coordinate absorbs the sum of the other two errors, one of which is
zero). -/
theorem axialRound_close (q r : ℚ)
    (h : (goRound q : ℚ) = q ∨ (goRound r : ℚ) = r ∨
         (goRound (-q - r) : ℚ) = -q - r) :
    |((axialRound q r).q : ℚ) - q| ≤ 1/2 ∧
    |((axialRound q r).r : ℚ) - r| ≤ 1/2 ∧
    |(-((axialRound q r).q : ℚ) - ((axialRound q r).r : ℚ)) - (-q - r)| ≤ 1/2 := by
  have hq := goRound_err q
  have hr := goRound_err r
  have hs := goRound_err (-q - r)
  simp only [axialRound]
  split_ifs with h1 h2
  · -- the q coordinate is repaired: its error is the negated sum of the
    -- r and s errors, one of which vanishes
    obtain ⟨h11, _⟩ := h1
    have hq0 : (goRound r : ℚ) = r ∨ (goRound (-q - r) : ℚ) = -q - r := by
      rcases h with h0 | h0 | h0
      · rw [h0, sub_self, abs_zero] at h11
        exact absurd h11 (not_lt.mpr (abs_nonneg _))
      · exact Or.inl h0
      · exact Or.inr h0
    refine ⟨?_, by simpa using hr, ?_⟩
    · have key : ((-(goRound r) - goRound (-q - r) : Int) : ℚ) - q =
          -(((goRound r : ℚ) - r) + ((goRound (-q - r) : ℚ) - (-q - r))) := by
        push_cast; ring
      rw [show ((-(goRound r) - goRound (-q - r) : Int) : ℚ) =
            -((goRound r : ℚ)) - ((goRound (-q - r) : ℚ)) by push_cast; ring] at key ⊢
      rw [show (-((goRound r : ℚ)) - ((goRound (-q - r) : ℚ))) - q =
            -(((goRound r : ℚ) - r) + ((goRound (-q - r) : ℚ) - (-q - r))) by ring,
        abs_neg]
      rcases hq0 with h0 | h0
      · rw [show ((goRound r : ℚ) - r) = 0 by rw [h0]; ring]
        simpa using hs
      · rw [show ((goRound (-q - r) : ℚ) - (-q - r)) = 0 by rw [h0]; ring]
        simpa using hr
    · rw [show (-((-(goRound r) - goRound (-q - r) : Int) : ℚ) - ((goRound r : Int) : ℚ)) =
          ((goRound (-q - r) : ℚ)) by push_cast; ring]
      exact hs
  · -- the r coordinate is repaired
    have hr0 : (goRound q : ℚ) = q ∨ (goRound (-q - r) : ℚ) = -q - r := by
      rcases h with h0 | h0 | h0
      · exact Or.inl h0
      · rw [h0, sub_self, abs_zero] at h2
        exact absurd h2 (not_lt.mpr (abs_nonneg _))
      · exact Or.inr h0
    refine ⟨by simpa using hq, ?_, ?_⟩
    · rw [show (((-(goRound q) - goRound (-q - r) : Int) : ℚ)) - r =
          -(((goRound q : ℚ) - q) + ((goRound (-q - r) : ℚ) - (-q - r))) by push_cast; ring,
        abs_neg]
      rcases hr0 with h0 | h0
      · rw [show ((goRound q : ℚ) - q) = 0 by rw [h0]; ring]
        simpa using hs
      · rw [show ((goRound (-q - r) : ℚ) - (-q - r)) = 0 by rw [h0]; ring]
        simpa using hq
    · rw [show (-((goRound q : Int) : ℚ) - ((-(goRound q) - goRound (-q - r) : Int) : ℚ)) =
          ((goRound (-q - r) : ℚ)) by push_cast; ring]
      exact hs
  · -- neither is repaired: the implicit s coordinate absorbs both errors,
    -- one of which vanishes (if s itself rounds exactly, ¬(rDiff > sDiff)
    -- forces the r error to vanish instead)
    refine ⟨by simpa using hq, by simpa using hr, ?_⟩
    rw [show (-((goRound q : Int) : ℚ) - ((goRound r : Int) : ℚ)) - (-q - r) =
          -(((goRound q : ℚ) - q) + ((goRound r : ℚ) - r)) by ring,
      abs_neg]
    rcases h with h0 | h0 | h0
    · rw [show ((goRound q : ℚ) - q) = 0 by rw [h0]; ring]
      simpa using hr
    · rw [show ((goRound r : ℚ) - r) = 0 by rw [h0]; ring]
      simpa using hq
    · push_neg at h2
      have hsd : |(goRound (-q - r) : ℚ) - (-q - r)| = 0 := by rw [h0]; simp
      have hrd : |(goRound r : ℚ) - r| = 0 :=
        le_antisymm (hsd ▸ h2) (abs_nonneg _)
      rw [show ((goRound r : ℚ) - r) = 0 from abs_eq_zero.mp hrd]
      simpa using hq

/-- `axialRound` on an exactly-integral pair is the identity. -/
theorem axialRound_intCast (m n : Int) :
    axialRound (m : ℚ) (n : ℚ) = ⟨m, n⟩ := by
  obtain ⟨h1, h2, -⟩ :=
    axialRound_close (m : ℚ) (n : ℚ) (Or.inl (by rw [goRound_intCast]))
  have e1 : (axialRound (m : ℚ) (n : ℚ)).q = m := int_close_eq _ _ h1
  have e2 : (axialRound (m : ℚ) (n : ℚ)).r = n := int_close_eq _ _ h2
  rcases hA : axialRound (m : ℚ) (n : ℚ) with ⟨aq, ar⟩
  rw [hA] at e1 e2
  simp only at e1 e2
  rw [e1, e2]

/-! ### Hex distance arithmetic -/

theorem hexDistance_nonneg (a b : AxialCoord) : 0 ≤ hexDistance a b := by
  simp only [hexDistance, goAbs]
  split_ifs <;> omega

theorem hexDistance_eq_zero_iff (a b : AxialCoord) :
    hexDistance a b = 0 ↔ a = b := by
  constructor
  · intro h
    have h2 : a.q = b.q ∧ a.r = b.r := by
      simp only [hexDistance, goAbs] at h
      split_ifs at h <;> omega
    rcases a with ⟨aq, ar⟩
    rcases b with ⟨bq, br⟩
    simp only at h2
    rw [h2.1, h2.2]
  · rintro rfl
    simp only [hexDistance, goAbs]
    split_ifs <;> omega

/-- `hexDistance` is the max-norm of the cube-coordinate difference:
each of the three cube deltas is bounded by it and one attains it. -/
theorem hexDistance_max (a b : AxialCoord) :
    (goAbs (b.q - a.q) ≤ hexDistance a b ∧
     goAbs (b.r - a.r) ≤ hexDistance a b ∧
     goAbs (-(b.q - a.q) - (b.r - a.r)) ≤ hexDistance a b) ∧
    (goAbs (b.q - a.q) = hexDistance a b ∨
     goAbs (b.r - a.r) = hexDistance a b ∨
     goAbs (-(b.q - a.q) - (b.r - a.r)) = hexDistance a b) := by
  simp only [hexDistance, goAbs]
  split_ifs <;> omega

theorem goAbs_eq_abs (x : Int) : goAbs x = |x| := by
  unfold goAbs
  rcases abs_cases x with ⟨he, hsgn⟩ | ⟨he, hsgn⟩ <;> split_ifs <;> omega

/-- One coordinate of two rounded points: if the exact coordinates are
at most `1` apart (and exactly-1 steps happen only between integral
values), integer values within `1/2` of them are at most `1` apart, and
exactly `1` apart in the exactly-1 case. -/
theorem round_coord_bound (x x' : ℚ) (m m' : Int)
    (hstep : |x' - x| ≤ 1)
    (hint : |x' - x| = 1 → (∃ n : Int, x = (n : ℚ)) ∧ ∃ n : Int, x' = (n : ℚ))
    (hm : |(m : ℚ) - x| ≤ 1/2) (hm' : |(m' : ℚ) - x'| ≤ 1/2) :
    |m' - m| ≤ 1 ∧ (|x' - x| = 1 → |m' - m| = 1) := by
  have hcast : ∀ a b : Int, ((|a - b| : Int) : ℚ) = |(a : ℚ) - (b : ℚ)| := by
    intro a b
    rw [Int.cast_abs]
    norm_num
  by_cases h1 : |x' - x| = 1
  · obtain ⟨⟨n, hn⟩, ⟨n', hn'⟩⟩ := hint h1
    have hmn : m = n := int_close_eq _ _ (by rw [← hn]; exact hm)
    have hmn' : m' = n' := int_close_eq _ _ (by rw [← hn']; exact hm')
    have h2 : |n' - n| = 1 := by
      have h3 : ((|n' - n| : Int) : ℚ) = 1 := by
        rw [hcast, ← hn, ← hn']
        exact h1
      exact_mod_cast h3
    subst hmn hmn'
    exact ⟨le_of_eq h2, fun _ => h2⟩
  · have hlt : |x' - x| < 1 := lt_of_le_of_ne hstep h1
    have t1 : |(m' : ℚ) - (m : ℚ)| ≤ |(m' : ℚ) - x'| + |x' - x| + |x - (m : ℚ)| := by
      calc |(m' : ℚ) - (m : ℚ)|
          = |((m' : ℚ) - x') + ((x' - x) + (x - (m : ℚ)))| := by ring_nf
        _ ≤ |(m' : ℚ) - x'| + |(x' - x) + (x - (m : ℚ))| := abs_add _ _
        _ ≤ |(m' : ℚ) - x'| + (|x' - x| + |x - (m : ℚ)|) := by
            gcongr
            exact abs_add _ _
        _ = |(m' : ℚ) - x'| + |x' - x| + |x - (m : ℚ)| := by ring
    have t2 : |x - (m : ℚ)| ≤ 1/2 := by rw [abs_sub_comm]; exact hm
    have t3 : |(m' : ℚ) - (m : ℚ)| < 2 := by linarith
    have t4 : ((|m' - m| : Int) : ℚ) < 2 := by rw [hcast]; exact t3
    have t5 : |m' - m| < 2 := by exact_mod_cast t4
    exact ⟨by omega, fun hcon => absurd hcon h1⟩

/-- Adjacency of consecutively rounded points: if the exact cube points
are one hex-step apart (every cube delta at most `1`, one of them
exactly `1`), exactly-1 deltas occur only between integral coordinate
values, and each point has some exactly-integral cube coordinate, then
the `axialRound` images are at hex distance exactly `1`. -/
theorem axialRound_adjacent (q r q' r' : ℚ)
    (hstepq : |q' - q| ≤ 1) (hstepr : |r' - r| ≤ 1)
    (hsteps : |(-q' - r') - (-q - r)| ≤ 1)
    (hintq : |q' - q| = 1 → (∃ n : Int, q = (n : ℚ)) ∧ ∃ n : Int, q' = (n : ℚ))
    (hintr : |r' - r| = 1 → (∃ n : Int, r = (n : ℚ)) ∧ ∃ n : Int, r' = (n : ℚ))
    (hints : |(-q' - r') - (-q - r)| = 1 →
      (∃ n : Int, -q - r = (n : ℚ)) ∧ ∃ n : Int, -q' - r' = (n : ℚ))
    (hdom : |q' - q| = 1 ∨ |r' - r| = 1 ∨ |(-q' - r') - (-q - r)| = 1)
    (hzero : (∃ n : Int, q = (n : ℚ)) ∨ (∃ n : Int, r = (n : ℚ)) ∨
      ∃ n : Int, -q - r = (n : ℚ))
    (hzero' : (∃ n : Int, q' = (n : ℚ)) ∨ (∃ n : Int, r' = (n : ℚ)) ∨
      ∃ n : Int, -q' - r' = (n : ℚ)) :
    hexDistance (axialRound q r) (axialRound q' r') = 1 := by
  have exact_of : ∀ x : ℚ, (∃ n : Int, x = (n : ℚ)) → (goRound x : ℚ) = x := by
    rintro x ⟨n, rfl⟩
    rw [goRound_intCast]
  have hc := axialRound_close q r (by
    rcases hzero with h | h | h
    · exact Or.inl (exact_of _ h)
    · exact Or.inr (Or.inl (exact_of _ h))
    · exact Or.inr (Or.inr (exact_of _ h)))
  have hc' := axialRound_close q' r' (by
    rcases hzero' with h | h | h
    · exact Or.inl (exact_of _ h)
    · exact Or.inr (Or.inl (exact_of _ h))
    · exact Or.inr (Or.inr (exact_of _ h)))
  obtain ⟨hcq, hcr, hcs⟩ := hc
  obtain ⟨hcq', hcr', hcs'⟩ := hc'
  have hbq := round_coord_bound q q' (axialRound q r).q (axialRound q' r').q
    hstepq hintq hcq hcq'
  have hbr := round_coord_bound r r' (axialRound q r).r (axialRound q' r').r
    hstepr hintr hcr hcr'
  have hbs := round_coord_bound (-q - r) (-q' - r')
    (-(axialRound q r).q - (axialRound q r).r)
    (-(axialRound q' r').q - (axialRound q' r').r)
    hsteps hints
    (by push_cast; exact hcs) (by push_cast; exact hcs')
  have hdq := abs_le.mp hbq.1
  have hdr := abs_le.mp hbr.1
  have hds := abs_le.mp hbs.1
  have hone : |(axialRound q' r').q - (axialRound q r).q| = 1 ∨
      |(axialRound q' r').r - (axialRound q r).r| = 1 ∨
      |(-(axialRound q' r').q - (axialRound q' r').r) -
        (-(axialRound q r).q - (axialRound q r).r)| = 1 := by
    rcases hdom with h | h | h
    · exact Or.inl (hbq.2 h)
    · exact Or.inr (Or.inl (hbr.2 h))
    · exact Or.inr (Or.inr (hbs.2 h))
  have habs : ∀ z : Int, |z| = 1 → z = 1 ∨ z = -1 := by
    intro z hz
    rcases abs_cases z with ⟨he, hsgn⟩ | ⟨he, hsgn⟩ <;> omega
  simp only [hexDistance, goAbs]
  rcases hone with h | h | h <;> rcases habs _ h with h2 | h2 <;>
    split_ifs <;> omega

/-- `lerpPoint` in translated form: base coordinate plus scaled delta. -/
theorem lerpPoint_eq (a b : AxialCoord) (d i : Int) :
    lerpPoint a b d i =
      axialRound ((a.q : ℚ) + (i : ℚ) * ((b.q - a.q : Int) : ℚ) / (d : ℚ))
        ((a.r : ℚ) + (i : ℚ) * ((b.r - a.r : Int) : ℚ) / (d : ℚ)) := by
  simp only [lerpPoint]
  by_cases hd : (d : ℚ) = 0
  · rw [hd]
    norm_num
  · have h1 : ∀ u v : Int,
        (u : ℚ) * (1 - (i : ℚ) / (d : ℚ)) + (v : ℚ) * ((i : ℚ) / (d : ℚ)) =
          (u : ℚ) + (i : ℚ) * ((v - u : Int) : ℚ) / (d : ℚ) := by
      intro u v
      push_cast
      field_simp
      ring
    rw [h1, h1]

/-- Consecutive points of the interpolated path are hex-adjacent. -/
theorem lerpPoint_step (a b : AxialCoord) (i : Int)
    (h0 : 0 ≤ i) (h1 : i < hexDistance a b) :
    hexDistance (lerpPoint a b (hexDistance a b) i)
      (lerpPoint a b (hexDistance a b) (i + 1)) = 1 := by
  have hdpos : 0 < hexDistance a b := lt_of_le_of_lt h0 h1
  set d := hexDistance a b with hd
  have hdQ0 : (0 : ℚ) < (d : ℚ) := by exact_mod_cast hdpos
  have step_abs : ∀ δ : Int, |(δ : ℚ) / (d : ℚ)| = ((goAbs δ : Int) : ℚ) / (d : ℚ) := by
    intro δ
    rw [abs_div, goAbs_eq_abs, Int.cast_abs, abs_of_pos hdQ0]
  have step_le : ∀ δ : Int, goAbs δ ≤ d → |(δ : ℚ) / (d : ℚ)| ≤ 1 := by
    intro δ h
    rw [step_abs, div_le_one hdQ0]
    exact_mod_cast h
  have step_one : ∀ δ : Int, |(δ : ℚ) / (d : ℚ)| = 1 ↔ goAbs δ = d := by
    intro δ
    rw [step_abs, div_eq_one_iff_eq (ne_of_gt hdQ0)]
    exact_mod_cast Iff.rfl
  have int_of : ∀ (base δ j : Int), goAbs δ = d →
      ∃ n : Int, (base : ℚ) + (j : ℚ) * ((δ : Int) : ℚ) / (d : ℚ) = (n : ℚ) := by
    intro base δ j hδ
    have hcases : δ = d ∨ δ = -d := by
      simp only [goAbs] at hδ
      split_ifs at hδ <;> omega
    rcases hcases with rfl | rfl
    · exact ⟨base + j, by push_cast; field_simp⟩
    · refine ⟨base - j, ?_⟩
      push_cast
      field_simp
      ring
  obtain ⟨⟨hq_le, hr_le, hs_le⟩, hattain⟩ := hexDistance_max a b
  rw [lerpPoint_eq, lerpPoint_eq]
  apply axialRound_adjacent
  · rw [show ((a.q : ℚ) + ((i + 1 : Int) : ℚ) * ((b.q - a.q : Int) : ℚ) / (d : ℚ)) -
        ((a.q : ℚ) + (i : ℚ) * ((b.q - a.q : Int) : ℚ) / (d : ℚ)) =
        ((b.q - a.q : Int) : ℚ) / (d : ℚ) by push_cast; ring]
    exact step_le _ hq_le
  · rw [show ((a.r : ℚ) + ((i + 1 : Int) : ℚ) * ((b.r - a.r : Int) : ℚ) / (d : ℚ)) -
        ((a.r : ℚ) + (i : ℚ) * ((b.r - a.r : Int) : ℚ) / (d : ℚ)) =
        ((b.r - a.r : Int) : ℚ) / (d : ℚ) by push_cast; ring]
    exact step_le _ hr_le
  · rw [show (-((a.q : ℚ) + ((i + 1 : Int) : ℚ) * ((b.q - a.q : Int) : ℚ) / (d : ℚ)) -
        ((a.r : ℚ) + ((i + 1 : Int) : ℚ) * ((b.r - a.r : Int) : ℚ) / (d : ℚ))) -
        (-((a.q : ℚ) + (i : ℚ) * ((b.q - a.q : Int) : ℚ) / (d : ℚ)) -
        ((a.r : ℚ) + (i : ℚ) * ((b.r - a.r : Int) : ℚ) / (d : ℚ))) =
        ((-(b.q - a.q) - (b.r - a.r) : Int) : ℚ) / (d : ℚ) by push_cast; ring]
    exact step_le _ hs_le
  · intro hstep
    rw [show ((a.q : ℚ) + ((i + 1 : Int) : ℚ) * ((b.q - a.q : Int) : ℚ) / (d : ℚ)) -
        ((a.q : ℚ) + (i : ℚ) * ((b.q - a.q : Int) : ℚ) / (d : ℚ)) =
        ((b.q - a.q : Int) : ℚ) / (d : ℚ) by push_cast; ring] at hstep
    have hδ := (step_one _).mp hstep
    exact ⟨int_of a.q _ i hδ, int_of a.q _ (i + 1) hδ⟩
  · intro hstep
    rw [show ((a.r : ℚ) + ((i + 1 : Int) : ℚ) * ((b.r - a.r : Int) : ℚ) / (d : ℚ)) -
        ((a.r : ℚ) + (i : ℚ) * ((b.r - a.r : Int) : ℚ) / (d : ℚ)) =
        ((b.r - a.r : Int) : ℚ) / (d : ℚ) by push_cast; ring] at hstep
    have hδ := (step_one _).mp hstep
    exact ⟨int_of a.r _ i hδ, int_of a.r _ (i + 1) hδ⟩
  · intro hstep
    rw [show (-((a.q : ℚ) + ((i + 1 : Int) : ℚ) * ((b.q - a.q : Int) : ℚ) / (d : ℚ)) -
        ((a.r : ℚ) + ((i + 1 : Int) : ℚ) * ((b.r - a.r : Int) : ℚ) / (d : ℚ))) -
        (-((a.q : ℚ) + (i : ℚ) * ((b.q - a.q : Int) : ℚ) / (d : ℚ)) -
        ((a.r : ℚ) + (i : ℚ) * ((b.r - a.r : Int) : ℚ) / (d : ℚ))) =
        ((-(b.q - a.q) - (b.r - a.r) : Int) : ℚ) / (d : ℚ) by push_cast; ring] at hstep
    have hδ := (step_one _).mp hstep
    refine ⟨⟨(int_of (-a.q - a.r) _ i hδ).choose, ?_⟩,
      ⟨(int_of (-a.q - a.r) _ (i + 1) hδ).choose, ?_⟩⟩
    · rw [show -((a.q : ℚ) + (i : ℚ) * ((b.q - a.q : Int) : ℚ) / (d : ℚ)) -
          ((a.r : ℚ) + (i : ℚ) * ((b.r - a.r : Int) : ℚ) / (d : ℚ)) =
          ((-a.q - a.r : Int) : ℚ) +
            (i : ℚ) * ((-(b.q - a.q) - (b.r - a.r) : Int) : ℚ) / (d : ℚ) by
        push_cast; ring]
      exact (int_of (-a.q - a.r) _ i hδ).choose_spec
    · rw [show -((a.q : ℚ) + ((i + 1 : Int) : ℚ) * ((b.q - a.q : Int) : ℚ) / (d : ℚ)) -
          ((a.r : ℚ) + ((i + 1 : Int) : ℚ) * ((b.r - a.r : Int) : ℚ) / (d : ℚ)) =
          ((-a.q - a.r : Int) : ℚ) +
            ((i + 1 : Int) : ℚ) * ((-(b.q - a.q) - (b.r - a.r) : Int) : ℚ) / (d : ℚ) by
        push_cast; ring]
      exact (int_of (-a.q - a.r) _ (i + 1) hδ).choose_spec
  · rcases hattain with h | h | h
    · refine Or.inl ?_
      rw [show ((a.q : ℚ) + ((i + 1 : Int) : ℚ) * ((b.q - a.q : Int) : ℚ) / (d : ℚ)) -
          ((a.q : ℚ) + (i : ℚ) * ((b.q - a.q : Int) : ℚ) / (d : ℚ)) =
          ((b.q - a.q : Int) : ℚ) / (d : ℚ) by push_cast; ring]
      exact (step_one _).mpr h
    · refine Or.inr (Or.inl ?_)
      rw [show ((a.r : ℚ) + ((i + 1 : Int) : ℚ) * ((b.r - a.r : Int) : ℚ) / (d : ℚ)) -
          ((a.r : ℚ) + (i : ℚ) * ((b.r - a.r : Int) : ℚ) / (d : ℚ)) =
          ((b.r - a.r : Int) : ℚ) / (d : ℚ) by push_cast; ring]
      exact (step_one _).mpr h
    · refine Or.inr (Or.inr ?_)
      rw [show (-((a.q : ℚ) + ((i + 1 : Int) : ℚ) * ((b.q - a.q : Int) : ℚ) / (d : ℚ)) -
          ((a.r : ℚ) + ((i + 1 : Int) : ℚ) * ((b.r - a.r : Int) : ℚ) / (d : ℚ))) -
          (-((a.q : ℚ) + (i : ℚ) * ((b.q - a.q : Int) : ℚ) / (d : ℚ)) -
          ((a.r : ℚ) + (i : ℚ) * ((b.r - a.r : Int) : ℚ) / (d : ℚ))) =
          ((-(b.q - a.q) - (b.r - a.r) : Int) : ℚ) / (d : ℚ) by push_cast; ring]
      exact (step_one _).mpr h
  · rcases hattain with h | h | h
    · exact Or.inl (int_of a.q _ i h)
    · exact Or.inr (Or.inl (int_of a.r _ i h))
    · refine Or.inr (Or.inr ⟨(int_of (-a.q - a.r) _ i h).choose, ?_⟩)
      rw [show -((a.q : ℚ) + (i : ℚ) * ((b.q - a.q : Int) : ℚ) / (d : ℚ)) -
          ((a.r : ℚ) + (i : ℚ) * ((b.r - a.r : Int) : ℚ) / (d : ℚ)) =
          ((-a.q - a.r : Int) : ℚ) +
            (i : ℚ) * ((-(b.q - a.q) - (b.r - a.r) : Int) : ℚ) / (d : ℚ) by
        push_cast; ring]
      exact (int_of (-a.q - a.r) _ i h).choose_spec
  · rcases hattain with h | h | h
    · exact Or.inl (int_of a.q _ (i + 1) h)
    · exact Or.inr (Or.inl (int_of a.r _ (i + 1) h))
    · refine Or.inr (Or.inr ⟨(int_of (-a.q - a.r) _ (i + 1) h).choose, ?_⟩)
      rw [show -((a.q : ℚ) + ((i + 1 : Int) : ℚ) * ((b.q - a.q : Int) : ℚ) / (d : ℚ)) -
          ((a.r : ℚ) + ((i + 1 : Int) : ℚ) * ((b.r - a.r : Int) : ℚ) / (d : ℚ)) =
          ((-a.q - a.r : Int) : ℚ) +
            ((i + 1 : Int) : ℚ) * ((-(b.q - a.q) - (b.r - a.r) : Int) : ℚ) / (d : ℚ) by
        push_cast; ring]
      exact (int_of (-a.q - a.r) _ (i + 1) h).choose_spec

theorem lerpPoint_zero (a b : AxialCoord) (d : Int) : lerpPoint a b d 0 = a := by
  rw [lerpPoint_eq]
  rw [show (a.q : ℚ) + ((0 : Int) : ℚ) * ((b.q - a.q : Int) : ℚ) / (d : ℚ) =
      ((a.q : Int) : ℚ) by push_cast; ring]
  rw [show (a.r : ℚ) + ((0 : Int) : ℚ) * ((b.r - a.r : Int) : ℚ) / (d : ℚ) =
      ((a.r : Int) : ℚ) by push_cast; ring]
  rw [axialRound_intCast]

theorem lerpPoint_last (a b : AxialCoord) (d : Int) (hd : d ≠ 0) :
    lerpPoint a b d d = b := by
  have hdQ : (d : ℚ) ≠ 0 := Int.cast_ne_zero.mpr hd
  rw [lerpPoint_eq]
  rw [show (a.q : ℚ) + ((d : Int) : ℚ) * ((b.q - a.q : Int) : ℚ) / (d : ℚ) =
      ((b.q : Int) : ℚ) by push_cast; field_simp]
  rw [show (a.r : ℚ) + ((d : Int) : ℚ) * ((b.r - a.r : Int) : ℚ) / (d : ℚ) =
      ((b.r : Int) : ℚ) by push_cast; field_simp]
  rw [axialRound_intCast]

/-- The Go path (`path[0] = from`, interior rounds, `path[d] = to`) is
the map of `lerpPoint` over `0, …, d`. -/
theorem hexPathRegion_eq_map (a b : AxialCoord) :
    hexPathRegion a b =
      (List.range ((hexDistance a b).toNat + 1)).map
        (fun i0 : ℕ => lerpPoint a b (hexDistance a b) (i0 : Int)) := by
  simp only [hexPathRegion]
  by_cases h : hexDistance a b = 0
  · rw [if_pos h, h]
    simp only [Int.toNat_zero, Nat.zero_add, List.range_succ, List.range_zero,
      List.nil_append, List.map_cons, List.map_nil, Nat.cast_zero]
    rw [lerpPoint_zero]
  · rw [if_neg h]
    have hpos : 0 < hexDistance a b :=
      lt_of_le_of_ne (hexDistance_nonneg a b) (Ne.symm h)
    obtain ⟨M, hM⟩ : ∃ M, (hexDistance a b).toNat = M + 1 :=
      ⟨(hexDistance a b).toNat - 1, by omega⟩
    rw [hM]
    rw [List.range_succ_eq_map, List.map_cons, List.range_succ, List.map_map,
      List.map_append]
    have h0 : lerpPoint a b (hexDistance a b) ((0 : ℕ) : Int) = a := by
      exact_mod_cast lerpPoint_zero a b (hexDistance a b)
    have hlast : (lerpPoint a b (hexDistance a b) ((M + 1 : ℕ) : Int)) = b := by
      rw [show ((M + 1 : ℕ) : Int) = hexDistance a b by omega]
      exact lerpPoint_last a b _ h
    simp only [List.map_map, List.map_cons, List.map_nil, Function.comp]
    rw [h0, hlast]
    rw [show M + 1 - 1 = M by omega]
    rw [List.append_assoc, List.singleton_append]
    congr 2

theorem hexPathRegion_length (a b : AxialCoord) :
    (hexPathRegion a b).length = (hexDistance a b).toNat + 1 := by
  rw [hexPathRegion_eq_map, List.length_map, List.length_range]

theorem hexPathRegion_head (a b : AxialCoord) :
    (hexPathRegion a b).head? = some a := by
  rw [hexPathRegion_eq_map, List.range_succ_eq_map]
  simp only [List.map_cons, List.head?_cons, Nat.cast_zero, lerpPoint_zero]

theorem hexPathRegion_getLast (a b : AxialCoord) :
    (hexPathRegion a b).getLast? = some b := by
  rw [hexPathRegion_eq_map, List.range_succ, List.map_append]
  simp only [List.map_cons, List.map_nil, List.getLast?_concat]
  by_cases h : hexDistance a b = 0
  · have hab : a = b := (hexDistance_eq_zero_iff a b).mp h
    rw [h]
    simp only [Int.toNat_zero, Nat.cast_zero, lerpPoint_zero, hab]
  · rw [show (((hexDistance a b).toNat : ℕ) : Int) = hexDistance a b by
      have := hexDistance_nonneg a b; omega]
    rw [lerpPoint_last a b _ h]

theorem hexPathRegion_chain (a b : AxialCoord) :
    (hexPathRegion a b).Chain' (fun x y => hexDistance x y = 1) := by
  rw [hexPathRegion_eq_map, List.chain'_map, List.chain'_range_succ]
  intro m hm
  have hd := hexDistance_nonneg a b
  have h := lerpPoint_step a b (m : Int) (by omega) (by omega)
  rw [show ((m + 1 : ℕ) : Int) = (m : Int) + 1 by push_cast; ring]
  exact h

/-! ### Minimising folds -/

theorem foldl_min_le {α : Type} (f : α → Int) (l : List α) (init : Int) :
    (∀ x ∈ l, l.foldl (fun m x => if f x < m then f x else m) init ≤ f x) ∧
    l.foldl (fun m x => if f x < m then f x else m) init ≤ init ∧
    (l.foldl (fun m x => if f x < m then f x else m) init = init ∨
      ∃ x ∈ l, l.foldl (fun m x => if f x < m then f x else m) init = f x) := by
  induction l generalizing init with
  | nil => simp
  | cons y ys ih =>
    simp only [List.foldl_cons]
    by_cases h : f y < init
    · rw [if_pos h]
      obtain ⟨h1, h2, h3⟩ := ih (f y)
      refine ⟨?_, le_of_lt (lt_of_le_of_lt h2 h), ?_⟩
      · intro x hx
        rcases List.mem_cons.mp hx with rfl | hx
        · exact h2
        · exact h1 x hx
      · rcases h3 with h3 | ⟨x, hx, h3⟩
        · exact Or.inr ⟨y, List.mem_cons_self y ys, h3⟩
        · exact Or.inr ⟨x, List.mem_cons_of_mem y hx, h3⟩
    · rw [if_neg h]
      obtain ⟨h1, h2, h3⟩ := ih init
      refine ⟨?_, h2, ?_⟩
      · intro x hx
        rcases List.mem_cons.mp hx with rfl | hx
        · omega
        · exact h1 x hx
      · rcases h3 with h3 | ⟨x, hx, h3⟩
        · exact Or.inl h3
        · exact Or.inr ⟨x, List.mem_cons_of_mem y hx, h3⟩

theorem foldl_best_spec {α β : Type} (l : List α) (fd : α → Int) (fc : α → β)
    (d0 : Int) (c0 : β) :
    (l.foldl (fun (acc : Int × β) x => if fd x < acc.1 then (fd x, fc x) else acc)
        (d0, c0) = (d0, c0) ∨
      ∃ x ∈ l, l.foldl
        (fun (acc : Int × β) x => if fd x < acc.1 then (fd x, fc x) else acc)
        (d0, c0) = (fd x, fc x)) ∧
    (l.foldl (fun (acc : Int × β) x => if fd x < acc.1 then (fd x, fc x) else acc)
        (d0, c0)).1 ≤ d0 ∧
    ∀ x ∈ l, (l.foldl
        (fun (acc : Int × β) x => if fd x < acc.1 then (fd x, fc x) else acc)
        (d0, c0)).1 ≤ fd x := by
  induction l generalizing d0 c0 with
  | nil => simp
  | cons y ys ih =>
    simp only [List.foldl_cons]
    by_cases h : fd y < d0
    · rw [if_pos h]
      obtain ⟨h1, h2, h3⟩ := ih (fd y) (fc y)
      refine ⟨?_, le_of_lt (lt_of_le_of_lt h2 h), ?_⟩
      · rcases h1 with h1 | ⟨x, hx, h1⟩
        · exact Or.inr ⟨y, List.mem_cons_self y ys, h1⟩
        · exact Or.inr ⟨x, List.mem_cons_of_mem y hx, h1⟩
      · intro x hx
        rcases List.mem_cons.mp hx with rfl | hx
        · exact h2
        · exact h3 x hx
    · rw [if_neg h]
      obtain ⟨h1, h2, h3⟩ := ih d0 c0
      refine ⟨?_, h2, ?_⟩
      · rcases h1 with h1 | ⟨x, hx, h1⟩
        · exact Or.inl h1
        · exact Or.inr ⟨x, List.mem_cons_of_mem y hx, h1⟩
      · intro x hx
        rcases List.mem_cons.mp hx with rfl | hx
        · omega
        · exact h3 x hx

/-! ### Wrapping arithmetic -/

theorem neg_tmod (a b : Int) : (-a).tmod b = -(a.tmod b) := by
  simp [Int.tmod_def, Int.neg_tdiv]
  ring

theorem goMod_eq_emod (a n : Int) (hn : 0 < n) : goMod a n = a % n := by
  unfold goMod
  have hub : a.tmod n < n := Int.tmod_lt_of_pos a hn
  have hlb : -n < a.tmod n := by
    rcases le_or_lt 0 a with h | h
    · have := Int.tmod_nonneg n h
      omega
    · have h1 : a.tmod n = -((-a).tmod n) := by rw [neg_tmod]; ring
      have h2 : (-a).tmod n < n := Int.tmod_lt_of_pos (-a) hn
      omega
  have hnn : 0 ≤ a.tmod n + n := by omega
  rw [Int.tmod_eq_emod hnn (le_of_lt hn)]
  have hcong : (a.tmod n) % n = a % n := by
    rw [Int.tmod_def, Int.sub_emod, Int.mul_emod_right]
    simp [Int.emod_emod_of_dvd]
  calc (a.tmod n + n) % n = (a.tmod n + 1 * n) % n := by ring_nf
    _ = a.tmod n % n := Int.add_mul_emod_self
    _ = a % n := hcong

theorem emod_add_mul_right (a k n : Int) : (a + k * n) % n = a % n := by
  rw [mul_comm, Int.add_mul_emod_self_left]

theorem goMod_bounds (a n : Int) (hn : 0 < n) : 0 ≤ goMod a n ∧ goMod a n < n := by
  rw [goMod_eq_emod a n hn]
  exact ⟨Int.emod_nonneg a (by omega), Int.emod_lt_of_pos a hn⟩

theorem goMod_of_range (a n : Int) (h0 : 0 ≤ a) (h1 : a < n) : goMod a n = a := by
  rw [goMod_eq_emod a n (by omega)]
  exact Int.emod_eq_of_lt h0 h1

theorem goMod_add_mul (a k n : Int) (hn : 0 < n) :
    goMod (a + k * n) n = goMod a n := by
  rw [goMod_eq_emod _ n hn, goMod_eq_emod a n hn, emod_add_mul_right]

/-- The wrapped coordinate of a `World` grid with positive dimensions
has offset coordinates inside the rectangle. -/
theorem wrapCoord_offset (g : GridConfig) (c : AxialCoord)
    (ht : g.topology = Topology.World) :
    WrapCoord g c =
      OffsetToAxial (goMod (ToOffset c).1 g.width) (goMod (ToOffset c).2 g.height) := by
  unfold WrapCoord
  rw [if_neg (by rw [ht]; simp)]

theorem mem_AllCoords (g : GridConfig) (col row : Int)
    (hc : 0 ≤ col) (hc2 : col < g.width) (hr : 0 ≤ row) (hr2 : row < g.height) :
    OffsetToAxial col row ∈ AllCoords g := by
  simp only [AllCoords, List.mem_flatMap, List.mem_map, List.mem_range]
  refine ⟨row.toNat, ?_, col.toNat, ?_, ?_⟩
  · omega
  · omega
  · rw [show ((col.toNat : ℕ) : Int) = col by omega,
      show ((row.toNat : ℕ) : Int) = row by omega]

theorem wrapCoord_idem (g : GridConfig) (c : AxialCoord)
    (ht : g.topology = Topology.World) (hw : 0 < g.width) (hh : 0 < g.height) :
    WrapCoord g (WrapCoord g c) = WrapCoord g c := by
  rw [wrapCoord_offset g c ht, wrapCoord_offset g _ ht, ToOffset_OffsetToAxial]
  obtain ⟨hw1, hw2⟩ := goMod_bounds (ToOffset c).1 g.width hw
  obtain ⟨hh1, hh2⟩ := goMod_bounds (ToOffset c).2 g.height hh
  rw [goMod_of_range _ _ hw1 hw2, goMod_of_range _ _ hh1 hh2]

theorem min_eq_if (a b : Int) : min a b = if b < a then b else a := by
  rw [min_def]
  split_ifs <;> omega

theorem distanceTo_world_fold (g : GridConfig) (a b : AxialCoord)
    (ht : g.topology = Topology.World) :
    DistanceTo a b g = shiftPairs.foldl
      (fun m p => if (fun p : Int × Int =>
          hexDistance a ⟨b.q + p.1 * g.width, b.r + p.2 * g.height⟩) p < m
        then (fun p : Int × Int =>
          hexDistance a ⟨b.q + p.1 * g.width, b.r + p.2 * g.height⟩) p else m)
      (hexDistance a b) := by
  unfold DistanceTo
  rw [if_neg (by rw [ht]; simp)]

theorem specOffsetWorldDistance_fold (g : GridConfig) (a b : AxialCoord) :
    specOffsetWorldDistance a b g = shiftPairs.foldl
      (fun m p => if (fun p : Int × Int =>
          hexDistance a (OffsetToAxial ((ToOffset b).1 + p.1 * g.width)
            ((ToOffset b).2 + p.2 * g.height))) p < m
        then (fun p : Int × Int =>
          hexDistance a (OffsetToAxial ((ToOffset b).1 + p.1 * g.width)
            ((ToOffset b).2 + p.2 * g.height))) p else m)
      (hexDistance a b) := by
  unfold specOffsetWorldDistance
  simp only [min_eq_if]

theorem shortestPath_world_eq (g : GridConfig) (a b : AxialCoord)
    (ht : g.topology = Topology.World) :
    ShortestPath g a b =
      (hexPathRegion a
        (shiftPairs.foldl
          (fun (acc : Int × AxialCoord) p =>
            if (fun p : Int × Int =>
                hexDistance a (OffsetToAxial ((ToOffset b).1 + p.1 * g.width)
                  ((ToOffset b).2 + p.2 * g.height))) p < acc.1
            then ((fun p : Int × Int =>
                hexDistance a (OffsetToAxial ((ToOffset b).1 + p.1 * g.width)
                  ((ToOffset b).2 + p.2 * g.height))) p,
              (fun p : Int × Int =>
                OffsetToAxial ((ToOffset b).1 + p.1 * g.width)
                  ((ToOffset b).2 + p.2 * g.height)) p)
            else acc)
          (hexDistance a b, b)).2).map (WrapCoord g) := by
  unfold ShortestPath
  rw [if_neg (by rw [ht]; simp)]

/-- C6: converting any axial coordinate `(q, r)` to offset coordinates
and back yields exactly `(q, r)`, and converting any offset pair
`(col, row)` to axial and back yields exactly `(col, row)`. -/
theorem claim_C6_offset_roundtrip :
    (∀ q r : Int, OffsetToAxial (ToOffset ⟨q, r⟩).1 (ToOffset ⟨q, r⟩).2 = ⟨q, r⟩) ∧
    ∀ col row : Int, ToOffset (OffsetToAxial col row) = (col, row) :=
  ⟨fun q r => OffsetToAxial_ToOffset ⟨q, r⟩, ToOffset_OffsetToAxial⟩

/-- C10: on a World grid with positive dimensions, `WrapCoord` of any
coordinate is valid, and `WrapCoord` is idempotent. -/
theorem claim_C10_wrap_valid_idem (g : GridConfig) (c : AxialCoord)
    (ht : g.topology = Topology.World) (hw : 0 < g.width) (hh : 0 < g.height) :
    IsValid g (WrapCoord g c) = true ∧
    WrapCoord g (WrapCoord g c) = WrapCoord g c := by
  have hidem := wrapCoord_idem g c ht hw hh
  refine ⟨?_, hidem⟩
  rw [IsValid, if_pos ht, hidem, wrapCoord_offset g c ht]
  have h1 := goMod_bounds (ToOffset c).1 g.width hw
  have h2 := goMod_bounds (ToOffset c).2 g.height hh
  exact List.elem_eq_true_of_mem (mem_AllCoords g _ _ h1.1 h1.2 h2.1 h2.2)

/-- Witness for C10 at the concrete World grid 5×3 and the far-away
coordinate (7, −9). -/
theorem claim_C10_witness :
    IsValid ⟨5, 3, Topology.World⟩
      (WrapCoord ⟨5, 3, Topology.World⟩ ⟨7, -9⟩) = true ∧
    WrapCoord ⟨5, 3, Topology.World⟩
      (WrapCoord ⟨5, 3, Topology.World⟩ ⟨7, -9⟩) =
      WrapCoord ⟨5, 3, Topology.World⟩ ⟨7, -9⟩ :=
  claim_C10_wrap_valid_idem ⟨5, 3, Topology.World⟩ ⟨7, -9⟩ rfl
    (by decide) (by decide)

/-- C8 (counterexample): on the Region 5×3 grid the claimed corner
neighbor set {(1,0), (−1,1), (0,1)} intersected with the valid set has
only two elements, so it cannot be the neighbor list of (0,0), which
has three elements. -/
theorem claim_C8_counterexample :
    (([⟨1, 0⟩, ⟨-1, 1⟩, ⟨0, 1⟩] : List AxialCoord).filter
        (fun c => IsValid ⟨5, 3, Topology.Region⟩ c)) =
      [⟨1, 0⟩, ⟨0, 1⟩] ∧
    (Neighbors ⟨0, 0⟩ ⟨5, 3, Topology.Region⟩).length = 3 ∧
    Neighbors ⟨0, 0⟩ ⟨5, 3, Topology.Region⟩ ≠
      ([⟨1, 0⟩, ⟨-1, 1⟩, ⟨0, 1⟩] : List AxialCoord).filter
        (fun c => IsValid ⟨5, 3, Topology.Region⟩ c) := by decide

/-- C8 (amended): on the Region 5×3 grid the corner (0,0) has exactly
the three neighbors (1,0), (1,−1), (0,1) — the six directions
intersected with the valid set — and on the World 5×3 grid it has
exactly six distinct neighbors after wrapping. -/
theorem claim_C8_neighbors :
    Neighbors ⟨0, 0⟩ ⟨5, 3, Topology.Region⟩ = [⟨1, 0⟩, ⟨1, -1⟩, ⟨0, 1⟩] ∧
    (Neighbors ⟨0, 0⟩ ⟨5, 3, Topology.Region⟩ =
      hexDirections.filter
        (fun d => IsValid ⟨5, 3, Topology.Region⟩ ⟨0 + d.q, 0 + d.r⟩)) ∧
    (Neighbors ⟨0, 0⟩ ⟨5, 3, Topology.World⟩).length = 6 ∧
    (Neighbors ⟨0, 0⟩ ⟨5, 3, Topology.World⟩).Nodup := by decide

/-- C4 (counterexample): on the 10×8 World grid, the minimum over the
nine offset-space shifted copies — the formula in the claim — equals 4
for the pair (0,0), (9,0), while `DistanceTo` returns 1. -/
theorem claim_C4_counterexample :
    specOffsetWorldDistance ⟨0, 0⟩ ⟨9, 0⟩ ⟨10, 8, Topology.World⟩ = 4 ∧
    DistanceTo ⟨0, 0⟩ ⟨9, 0⟩ ⟨10, 8, Topology.World⟩ = 1 := by decide

/-- C4 (amended): on World grids `DistanceTo(a, b)` is the minimum of
`hexDistance` over the nine copies of `b` shifted by `(dq·W, dr·H)`
directly in **axial** space; on Region grids it is `hexDistance(a, b)`;
on the 10×8 grid the World distance from (0,0) to (9,0) is 1 and the
Region distance is 9. -/
theorem claim_C4_distance (g : GridConfig) (a b : AxialCoord) :
    (g.topology = Topology.World →
      (∃ p ∈ shiftPairs, DistanceTo a b g =
        hexDistance a ⟨b.q + p.1 * g.width, b.r + p.2 * g.height⟩) ∧
      ∀ p ∈ shiftPairs, DistanceTo a b g ≤
        hexDistance a ⟨b.q + p.1 * g.width, b.r + p.2 * g.height⟩) ∧
    (g.topology = Topology.Region → DistanceTo a b g = hexDistance a b) ∧
    DistanceTo ⟨0, 0⟩ ⟨9, 0⟩ ⟨10, 8, Topology.World⟩ = 1 ∧
    DistanceTo ⟨0, 0⟩ ⟨9, 0⟩ ⟨10, 8, Topology.Region⟩ = 9 := by
  refine ⟨?_, ?_, by decide, by decide⟩
  · intro ht
    rw [distanceTo_world_fold g a b ht]
    obtain ⟨h1, h2, h3⟩ := foldl_min_le
      (fun p : Int × Int =>
        hexDistance a ⟨b.q + p.1 * g.width, b.r + p.2 * g.height⟩)
      shiftPairs (hexDistance a b)
    refine ⟨?_, h1⟩
    rcases h3 with h3 | ⟨x, hx, h3⟩
    · refine ⟨(0, 0), by decide, ?_⟩
      rw [h3]
      congr 1
      rcases b with ⟨bq, br⟩
      simp
    · exact ⟨x, hx, h3⟩
  · intro ht
    unfold DistanceTo
    rw [if_pos ht]

/-- Witness for C4's amended statement at the 10×8 grid in both
topologies. -/
theorem claim_C4_witness :
    ((∃ p ∈ shiftPairs,
        DistanceTo ⟨0, 0⟩ ⟨9, 0⟩ ⟨10, 8, Topology.World⟩ =
          hexDistance ⟨0, 0⟩
            ⟨(⟨9, 0⟩ : AxialCoord).q + p.1 * 10,
              (⟨9, 0⟩ : AxialCoord).r + p.2 * 8⟩) ∧
      ∀ p ∈ shiftPairs,
        DistanceTo ⟨0, 0⟩ ⟨9, 0⟩ ⟨10, 8, Topology.World⟩ ≤
          hexDistance ⟨0, 0⟩
            ⟨(⟨9, 0⟩ : AxialCoord).q + p.1 * 10,
              (⟨9, 0⟩ : AxialCoord).r + p.2 * 8⟩) ∧
    DistanceTo ⟨0, 0⟩ ⟨9, 0⟩ ⟨10, 8, Topology.Region⟩ =
      hexDistance ⟨0, 0⟩ ⟨9, 0⟩ :=
  ⟨(claim_C4_distance ⟨10, 8, Topology.World⟩ ⟨0, 0⟩ ⟨9, 0⟩).1 rfl,
    (claim_C4_distance ⟨10, 8, Topology.Region⟩ ⟨0, 0⟩ ⟨9, 0⟩).2.1 rfl⟩

/-- C5 (counterexample): on the 10×8 World grid the path from (0,0) to
(9,0) has 5 coordinates although `DistanceTo(a,b) + 1 = 2`. -/
theorem claim_C5_counterexample :
    (ShortestPath ⟨10, 8, Topology.World⟩ ⟨0, 0⟩ ⟨9, 0⟩).length = 5 ∧
    DistanceTo ⟨0, 0⟩ ⟨9, 0⟩ ⟨10, 8, Topology.World⟩ + 1 = 2 := by
  constructor
  · rw [shortestPath_world_eq _ _ _ rfl, List.length_map, hexPathRegion_length]
    decide
  · decide

/-- C5 (amended): on Region grids `ShortestPath(a,b)` has exactly
`DistanceTo(a,b)+1` coordinates, consecutive coordinates at hex distance
1, and begins with `a` and ends with `b`.  On World grids (positive
dimensions) the returned list is the Region path from `a` to the
offset-shifted copy of `b` minimising `hexDistance`, wrapped pointwise;
it has that minimum plus one coordinates and begins with `wrap(a)` and
ends with `wrap(b)`. -/
theorem claim_C5_path (g : GridConfig) (a b : AxialCoord) :
    (g.topology = Topology.Region →
      ((ShortestPath g a b).length : Int) = DistanceTo a b g + 1 ∧
      (ShortestPath g a b).head? = some a ∧
      (ShortestPath g a b).getLast? = some b ∧
      (ShortestPath g a b).Chain' (fun x y => hexDistance x y = 1)) ∧
    (g.topology = Topology.World → 0 < g.width → 0 < g.height →
      ∃ best : AxialCoord,
        (∃ p ∈ shiftPairs, best = OffsetToAxial ((ToOffset b).1 + p.1 * g.width)
            ((ToOffset b).2 + p.2 * g.height)) ∧
        hexDistance a best = specOffsetWorldDistance a b g ∧
        ShortestPath g a b = (hexPathRegion a best).map (WrapCoord g) ∧
        ((ShortestPath g a b).length : Int) = specOffsetWorldDistance a b g + 1 ∧
        (ShortestPath g a b).head? = some (WrapCoord g a) ∧
        (ShortestPath g a b).getLast? = some (WrapCoord g b)) := by
  constructor
  · intro ht
    have hsp : ShortestPath g a b = hexPathRegion a b := by
      unfold ShortestPath
      rw [if_pos ht]
    have hdt : DistanceTo a b g = hexDistance a b := by
      unfold DistanceTo
      rw [if_pos ht]
    rw [hsp, hdt]
    refine ⟨?_, hexPathRegion_head a b, hexPathRegion_getLast a b,
      hexPathRegion_chain a b⟩
    rw [hexPathRegion_length]
    have := hexDistance_nonneg a b
    push_cast
    omega
  · intro ht hw hh
    obtain ⟨hmem, hle0, hlex⟩ := foldl_best_spec shiftPairs
      (fun p : Int × Int => hexDistance a
        (OffsetToAxial ((ToOffset b).1 + p.1 * g.width)
          ((ToOffset b).2 + p.2 * g.height)))
      (fun p : Int × Int =>
        OffsetToAxial ((ToOffset b).1 + p.1 * g.width)
          ((ToOffset b).2 + p.2 * g.height))
      (hexDistance a b) b
    obtain ⟨hm1, hm2, hm3⟩ := foldl_min_le
      (fun p : Int × Int => hexDistance a
        (OffsetToAxial ((ToOffset b).1 + p.1 * g.width)
          ((ToOffset b).2 + p.2 * g.height)))
      shiftPairs (hexDistance a b)
    rw [specOffsetWorldDistance_fold g a b]
    rw [shortestPath_world_eq g a b ht]
    set res := shiftPairs.foldl
      (fun (acc : Int × AxialCoord) p =>
        if (fun p : Int × Int =>
            hexDistance a (OffsetToAxial ((ToOffset b).1 + p.1 * g.width)
              ((ToOffset b).2 + p.2 * g.height))) p < acc.1
        then ((fun p : Int × Int =>
            hexDistance a (OffsetToAxial ((ToOffset b).1 + p.1 * g.width)
              ((ToOffset b).2 + p.2 * g.height))) p,
          (fun p : Int × Int =>
            OffsetToAxial ((ToOffset b).1 + p.1 * g.width)
              ((ToOffset b).2 + p.2 * g.height)) p)
        else acc)
      (hexDistance a b, b) with hres
    set M := shiftPairs.foldl
      (fun m p => if (fun p : Int × Int =>
          hexDistance a (OffsetToAxial ((ToOffset b).1 + p.1 * g.width)
            ((ToOffset b).2 + p.2 * g.height))) p < m
        then (fun p : Int × Int =>
          hexDistance a (OffsetToAxial ((ToOffset b).1 + p.1 * g.width)
            ((ToOffset b).2 + p.2 * g.height))) p else m)
      (hexDistance a b) with hM
    have hpair : res.1 = hexDistance a res.2 := by
      rcases hmem with h | ⟨x, hx, h⟩ <;> rw [h]
    have hminval : res.1 = M := by
      apply le_antisymm
      · rcases hm3 with h | ⟨x, hx, h⟩
        · rw [h]; exact hle0
        · rw [h]; exact hlex x hx
      · rcases hmem with h | ⟨x, hx, h⟩
        · rw [h]; exact hm2
        · rw [h]; exact hm1 x hx
    refine ⟨res.2, ?_, by rw [← hpair, hminval], rfl, ?_, ?_, ?_⟩
    · rcases hmem with h | ⟨x, hx, h⟩
      · refine ⟨(0, 0), by decide, ?_⟩
        rw [h]
        rw [show (ToOffset b).1 + (0, 0).1 * g.width = (ToOffset b).1 by ring,
          show (ToOffset b).2 + (0, 0).2 * g.height = (ToOffset b).2 by ring]
        exact (OffsetToAxial_ToOffset b).symm
      · exact ⟨x, hx, by rw [h]⟩
    · rw [List.length_map, hexPathRegion_length, ← hminval, ← hpair]
      have := hexDistance_nonneg a res.2
      rw [hpair]
      push_cast
      omega
    · rw [List.head?_map, hexPathRegion_head]
      rfl
    · rw [List.getLast?_map, hexPathRegion_getLast]
      have hwrap : WrapCoord g res.2 = WrapCoord g b := by
        rcases hmem with h | ⟨x, hx, h⟩
        · rw [h]
        · rw [h]
          simp only
          rw [wrapCoord_offset g _ ht, wrapCoord_offset g b ht,
            ToOffset_OffsetToAxial]
          rw [goMod_add_mul _ _ _ hw, goMod_add_mul _ _ _ hh]
      show some (WrapCoord g res.2) = some (WrapCoord g b)
      rw [hwrap]

/-- Witness for C5's amended statement on the 10×8 grid, both
topologies. -/
theorem claim_C5_witness :
    (((ShortestPath ⟨10, 8, Topology.Region⟩ ⟨0, 0⟩ ⟨9, 0⟩).length : Int) =
        DistanceTo ⟨0, 0⟩ ⟨9, 0⟩ ⟨10, 8, Topology.Region⟩ + 1 ∧
      (ShortestPath ⟨10, 8, Topology.Region⟩ ⟨0, 0⟩ ⟨9, 0⟩).head? = some ⟨0, 0⟩ ∧
      (ShortestPath ⟨10, 8, Topology.Region⟩ ⟨0, 0⟩ ⟨9, 0⟩).getLast? = some ⟨9, 0⟩ ∧
      (ShortestPath ⟨10, 8, Topology.Region⟩ ⟨0, 0⟩ ⟨9, 0⟩).Chain'
        (fun x y => hexDistance x y = 1)) ∧
    ∃ best : AxialCoord,
      (∃ p ∈ shiftPairs, best = OffsetToAxial ((ToOffset ⟨9, 0⟩).1 + p.1 * 10)
          ((ToOffset ⟨9, 0⟩).2 + p.2 * 8)) ∧
      hexDistance ⟨0, 0⟩ best =
        specOffsetWorldDistance ⟨0, 0⟩ ⟨9, 0⟩ ⟨10, 8, Topology.World⟩ ∧
      ShortestPath ⟨10, 8, Topology.World⟩ ⟨0, 0⟩ ⟨9, 0⟩ =
        (hexPathRegion ⟨0, 0⟩ best).map (WrapCoord ⟨10, 8, Topology.World⟩) ∧
      ((ShortestPath ⟨10, 8, Topology.World⟩ ⟨0, 0⟩ ⟨9, 0⟩).length : Int) =
        specOffsetWorldDistance ⟨0, 0⟩ ⟨9, 0⟩ ⟨10, 8, Topology.World⟩ + 1 ∧
      (ShortestPath ⟨10, 8, Topology.World⟩ ⟨0, 0⟩ ⟨9, 0⟩).head? =
        some (WrapCoord ⟨10, 8, Topology.World⟩ ⟨0, 0⟩) ∧
      (ShortestPath ⟨10, 8, Topology.World⟩ ⟨0, 0⟩ ⟨9, 0⟩).getLast? =
        some (WrapCoord ⟨10, 8, Topology.World⟩ ⟨9, 0⟩) :=
  ⟨(claim_C5_path ⟨10, 8, Topology.Region⟩ ⟨0, 0⟩ ⟨9, 0⟩).1 rfl,
    (claim_C5_path ⟨10, 8, Topology.World⟩ ⟨0, 0⟩ ⟨9, 0⟩).2 rfl
      (by decide) (by decide)⟩

/-! ### Power-of-two-plus-one arithmetic -/

theorem two_pow_land_pred (k : Nat) : 2 ^ k &&& (2 ^ k - 1) = 0 := by
  apply Nat.eq_of_testBit_eq
  intro i
  rw [Nat.testBit_land, Nat.testBit_two_pow, Nat.testBit_two_pow_sub_one,
    Nat.zero_testBit]
  by_cases h : k = i <;> simp [h]

theorem land_pred_pow : ∀ m : Nat, 0 < m → m &&& (m - 1) = 0 →
    ∃ k : Nat, m = 2 ^ k := by
  intro m
  induction m using Nat.strong_induction_on with
  | _ m ih =>
    intro hm h
    have hbit : ∀ j : Nat, (m.testBit j && (m - 1).testBit j) = false := by
      intro j
      rw [← Nat.testBit_land, h, Nat.zero_testBit]
    rcases Nat.even_or_odd m with he | ho
    · obtain ⟨t, ht⟩ := he
      have htpos : 0 < t := by omega
      have hdiv : m / 2 = t := by omega
      have hdiv2 : (m - 1) / 2 = t - 1 := by omega
      have h2 : t &&& (t - 1) = 0 := by
        apply Nat.eq_of_testBit_eq
        intro i
        have := hbit (i + 1)
        rw [Nat.testBit_succ, Nat.testBit_succ, hdiv, hdiv2] at this
        rw [Nat.testBit_land, Nat.zero_testBit, this]
      obtain ⟨k, hk⟩ := ih t (by omega) htpos h2
      refine ⟨k + 1, ?_⟩
      rw [pow_succ]
      omega
    · obtain ⟨t, ht⟩ := ho
      rcases Nat.eq_zero_or_pos t with rfl | htpos
      · exact ⟨0, by omega⟩
      · exfalso
        have hdiv : m / 2 = t := by omega
        have hdiv2 : (m - 1) / 2 = t := by omega
        have hz : t = 0 := by
          apply Nat.eq_of_testBit_eq
          intro i
          have := hbit (i + 1)
          rw [Nat.testBit_succ, Nat.testBit_succ, hdiv, hdiv2,
            Bool.and_self] at this
          rw [this, Nat.zero_testBit]
        omega

/-- The size check accepts exactly the integers `2^k + 1` with
`k ≥ 1`. -/
theorem isPowerOfTwoPlusOne_iff (n : Int) :
    isPowerOfTwoPlusOne n = true ↔ ∃ k : Nat, 1 ≤ k ∧ n = 2 ^ k + 1 := by
  unfold isPowerOfTwoPlusOne
  constructor
  · intro h
    split at h
    · exact absurd h (by simp)
    · rename_i hge
      simp only [Bool.and_eq_true, decide_eq_true_eq, beq_iff_eq] at h
      obtain ⟨k, hk⟩ := land_pred_pow (n - 1).toNat (by omega) h.2
      refine ⟨k, ?_, ?_⟩
      · rcases Nat.eq_zero_or_pos k with rfl | h1
        · simp at hk
          omega
        · exact h1
      · have : ((2 : Nat) ^ k : Int) = 2 ^ k := by push_cast; ring
        omega
  · rintro ⟨k, hk1, rfl⟩
    have h2 : (2 : Int) ≤ 2 ^ k := by
      calc (2 : Int) = 2 ^ 1 := by norm_num
      _ ≤ 2 ^ k := by
        apply pow_le_pow_right₀ <;> omega
    rw [if_neg (by omega)]
    simp only [Bool.and_eq_true, decide_eq_true_eq, beq_iff_eq]
    refine ⟨by omega, ?_⟩
    have htn : (2 ^ k + 1 - 1 : Int).toNat = 2 ^ k := by
      have : ((2 : Nat) ^ k : Int) = 2 ^ k := by push_cast; ring
      omega
    rw [htn]
    exact two_pow_land_pred k

theorem nextLoop_pow (size : Int) :
    ∀ (fuel : Nat) (n : Nat) (hn : 0 < n) (j : Nat),
      (size - (n : Int)).toNat = fuel → n = 2 ^ j →
      ∃ j2 : Nat, j ≤ j2 ∧ nextLoop size n hn = 2 ^ j2 := by
  intro fuel
  induction fuel using Nat.strong_induction_on with
  | _ fuel ih =>
    intro n hn j hfuel hj
    rw [nextLoop]
    split
    · rename_i h
      obtain ⟨j2, hj2, hval⟩ := ih (size - ((n * 2 : Nat) : Int)).toNat
        (by omega) (n * 2) (by omega) (j + 1) rfl (by rw [pow_succ]; omega)
      exact ⟨j2, by omega, hval⟩
    · exact ⟨j, le_refl j, hj⟩

/-- The size `MultiOctaveNoise` computes always passes the
`DiamondSquare` size check. -/
theorem nextPowerOfTwoPlusOne_valid (n : Int) :
    isPowerOfTwoPlusOne (nextPowerOfTwoPlusOne n) = true := by
  unfold nextPowerOfTwoPlusOne
  split
  · decide
  · split
    · assumption
    · obtain ⟨j2, hj2, hval⟩ :=
        nextLoop_pow n (n - 2).toNat 2 (by norm_num) 1 rfl (by norm_num)
      rw [isPowerOfTwoPlusOne_iff]
      refine ⟨j2, hj2, ?_⟩
      rw [hval]
      push_cast
      ring

/-- C7 (counterexample): `DiamondSquare 100` fails with the invalid-size
message, but the failure is a Go `panic` (the `GoPanic` channel of the
embedding, which the source's own test catches with `recover`), not a
returned `error` value as the claim states. -/
theorem claim_C7_counterexample :
    DiamondSquare 100 (1/2) 42 = Except.error
      ⟨"DiamondSquare: size must be (2^n + 1), e.g., 129, 257, 513"⟩ := by
  rfl

/-- C7 (amended): for every size that is not of the form `2^k + 1`
(`k ≥ 1`), `DiamondSquare` fails by panicking with the invalid-size
message, for any roughness and seed; boundary cases behave as the spec's
scenarios state; and the panic cannot escape the generation pipeline,
because the size `MultiOctaveNoise` passes always satisfies the
check. -/
theorem claim_C7_invalid_size (size : Int) (roughness : ℚ) (seed : Int)
    (h : ¬ ∃ k : Nat, 1 ≤ k ∧ size = 2 ^ k + 1) :
    DiamondSquare size roughness seed = Except.error
      ⟨"DiamondSquare: size must be (2^n + 1), e.g., 129, 257, 513"⟩ ∧
    (isPowerOfTwoPlusOne 129 = true ∧ isPowerOfTwoPlusOne 128 = false ∧
      isPowerOfTwoPlusOne 3 = true ∧ isPowerOfTwoPlusOne 2 = false ∧
      isPowerOfTwoPlusOne 1 = false) ∧
    ∀ n : Int, isPowerOfTwoPlusOne (nextPowerOfTwoPlusOne n) = true := by
  refine ⟨?_, by decide, nextPowerOfTwoPlusOne_valid⟩
  have hb : isPowerOfTwoPlusOne size = false := by
    cases hq : isPowerOfTwoPlusOne size with
    | false => rfl
    | true => exact absurd ((isPowerOfTwoPlusOne_iff size).mp hq) h
  unfold DiamondSquare
  rw [if_pos (by rw [hb]; rfl)]

/-- Witness for C7's amended statement at size 100. -/
theorem claim_C7_witness :
    DiamondSquare 100 (1/2) 42 = Except.error
      ⟨"DiamondSquare: size must be (2^n + 1), e.g., 129, 257, 513"⟩ ∧
    (isPowerOfTwoPlusOne 129 = true ∧ isPowerOfTwoPlusOne 128 = false ∧
      isPowerOfTwoPlusOne 3 = true ∧ isPowerOfTwoPlusOne 2 = false ∧
      isPowerOfTwoPlusOne 1 = false) ∧
    ∀ n : Int, isPowerOfTwoPlusOne (nextPowerOfTwoPlusOne n) = true :=
  claim_C7_invalid_size 100 (1/2) 42 (by
    rintro ⟨k, hk, he⟩
    rw [show k = (k - 1) + 1 by omega, pow_succ] at he
    omega)

/-- C1: terrain generation is a pure function of the grid configuration
and the terrain configuration: two calls with the same inputs yield
results that are identical error values, or tile sequences of the same
length agreeing at every position in coordinates, elevation, land flag
and distance-to-water. -/
theorem claim_C1_determinism (g : GridConfig) (tc : TerrainConfig) :
    identicalTileSeqs (GenerateTerrain g tc) (GenerateTerrain g tc) := by
  unfold identicalTileSeqs
  cases h : GenerateTerrain g tc with
  | error e => rfl
  | ok t => exact ⟨rfl, fun i => ⟨rfl, rfl, rfl, rfl⟩⟩

/-- C9: every tile produced by `HeightmapToHexTiles` — and hence every
tile of a successful `GenerateTerrain` — has `IsLand` true exactly when
its elevation is strictly above the sea level. -/
theorem claim_C9_land_classification (g : GridConfig)
    (heightmap : List (List ℝ)) (seaLevel : ℝ) (tc : TerrainConfig) :
    ((HeightmapToHexTiles heightmap g seaLevel).Forall
      fun t => t.IsLand = true ↔ t.Elevation > seaLevel) ∧
    exceptTilesAll (GenerateTerrain g tc)
      (fun t => t.IsLand = true ↔ t.Elevation > (tc.SeaLevel : ℝ)) := by
  have hmain : ∀ (hm : List (List ℝ)) (sl : ℝ),
      (HeightmapToHexTiles hm g sl).Forall
        fun t => t.IsLand = true ↔ t.Elevation > sl := by
    intro hm sl
    rw [List.forall_iff_forall_mem]
    intro t ht
    unfold HeightmapToHexTiles at ht
    simp only [List.mem_map] at ht
    obtain ⟨coord, hc, hteq⟩ := ht
    rw [← hteq]
    unfold ClassifyLandWater
    simp only [decide_eq_true_eq]
  refine ⟨hmain heightmap seaLevel, ?_⟩
  unfold GenerateTerrain
  split
  · unfold exceptTilesAll
    trivial
  · simp only
    split
    · unfold exceptTilesAll
      trivial
    · unfold exceptTilesAll
      exact hmain _ _

/-! ### Hypsometric shaping -/

/-- With a working sea level strictly inside `(0, 1)`, the per-cell
transform stays within `[-6000, 8800]`. -/
theorem hypsoTransform_bounds (T v : ℚ) (hT1 : 0 < T) (hT2 : T < 1) :
    -6000 ≤ hypsoTransform T v ∧ hypsoTransform T v ≤ 8800 := by
  simp only [hypsoTransform]
  split
  · rename_i h
    set u : ℚ := if (v / T) < 0 then 0 else v / T with hu
    have hu0 : 0 ≤ u := by
      rw [hu]
      split
      · norm_num
      · next h2 => exact le_of_not_lt h2
    have hu1 : u ≤ 1 := by
      rw [hu]
      split
      · norm_num
      · rw [div_le_one hT1]
        exact h
    have h3 : (0 : ℝ) ≤ (u : ℝ) ^ (3 : ℝ) :=
      Real.rpow_nonneg (by exact_mod_cast hu0) _
    have h4 : (u : ℝ) ^ (3 : ℝ) ≤ 1 :=
      Real.rpow_le_one (by exact_mod_cast hu0) (by exact_mod_cast hu1)
        (by norm_num)
    constructor <;> nlinarith
  · rename_i h
    push_neg at h
    set r0 : ℚ := (v - T) / (1 - T) with hr0
    set u : ℚ := if r0 > 1 then 1 else r0 with hu
    have hr0pos : 0 < r0 := by
      rw [hr0]
      apply div_pos <;> linarith
    have hu0 : 0 ≤ u := by
      rw [hu]
      split
      · norm_num
      · linarith
    have hu1 : u ≤ 1 := by
      rw [hu]
      split
      · norm_num
      · next h2 => exact le_of_not_lt h2
    have h3 : (0 : ℝ) ≤ (u : ℝ) ^ (2.5 : ℝ) :=
      Real.rpow_nonneg (by exact_mod_cast hu0) _
    have h4 : (u : ℝ) ^ (2.5 : ℝ) ≤ 1 :=
      Real.rpow_le_one (by exact_mod_cast hu0) (by exact_mod_cast hu1)
        (by norm_num)
    constructor <;> nlinarith

/-- With a working sea level `< 1`, the transform of a cell is strictly
positive exactly when the cell lies strictly above the sea level. -/
theorem hypsoTransform_pos_iff (T v : ℚ) (hT2 : T < 1) :
    0 < hypsoTransform T v ↔ T < v := by
  simp only [hypsoTransform]
  split
  · rename_i h
    set u : ℚ := if (v / T) < 0 then 0 else v / T with hu
    have hu0 : 0 ≤ u := by
      rw [hu]
      split
      · norm_num
      · next h2 => exact le_of_not_lt h2
    have h3 : (0 : ℝ) ≤ (u : ℝ) ^ (3 : ℝ) :=
      Real.rpow_nonneg (by exact_mod_cast hu0) _
    constructor
    · intro hpos
      nlinarith
    · intro hlt
      exact absurd h (not_le.mpr hlt)
  · rename_i h
    push_neg at h
    set r0 : ℚ := (v - T) / (1 - T) with hr0
    set u : ℚ := if r0 > 1 then 1 else r0 with hu
    have hr0pos : 0 < r0 := by
      rw [hr0]
      apply div_pos <;> linarith
    have hu0 : 0 < u := by
      rw [hu]
      split
      · norm_num
      · exact hr0pos
    have h3 : (0 : ℝ) < (u : ℝ) ^ (2.5 : ℝ) :=
      Real.rpow_pos_of_pos (by exact_mod_cast hu0) _
    constructor
    · intro _
      exact h
    · intro _
      nlinarith

/-- In a strictly increasing list, exactly the elements after position
`i` are greater than the element at position `i`. -/
theorem sorted_count_gt (l : List ℚ) (hp : l.Pairwise (· < ·))
    (i : Nat) (hi : i < l.length) :
    (l.filter fun v => decide (l.getD i 0 < v)).length = l.length - i - 1 := by
  have hget := List.pairwise_iff_get.mp hp
  have hT : l.getD i 0 = l.get ⟨i, hi⟩ := List.getD_eq_getElem l 0 hi
  have hsplit := List.take_append_drop (i + 1) l
  have key : ∀ p : ℚ → Bool, (∀ a ∈ l.take (i + 1), ¬ p a = true) →
      (∀ a ∈ l.drop (i + 1), p a = true) →
      (l.filter p).length = l.length - i - 1 := by
    intro p h1 h2
    conv_lhs => rw [← hsplit]
    rw [List.filter_append, List.length_append,
      List.filter_eq_nil_iff.mpr h1, List.filter_eq_self.mpr h2,
      List.length_drop]
    simp
    omega
  apply key
  · intro a ha
    obtain ⟨j, hj, hja⟩ := List.getElem_of_mem ha
    rw [List.getElem_take] at hja
    have hjlen : j < i + 1 := by
      have := hj
      rw [List.length_take] at this
      omega
    simp only [decide_eq_true_eq]
    rw [hT, ← hja]
    rcases Nat.lt_or_ge j i with hji | hji
    · have := hget ⟨j, by omega⟩ ⟨i, hi⟩ hji
      simp only [List.get_eq_getElem] at this ⊢
      exact not_lt.mpr (le_of_lt this)
    · have hjeq : j = i := by omega
      subst hjeq
      simp only [List.get_eq_getElem]
      exact lt_irrefl _
  · intro a ha
    obtain ⟨j, hj, hja⟩ := List.getElem_of_mem ha
    rw [List.getElem_drop] at hja
    simp only [decide_eq_true_eq]
    rw [hT, ← hja]
    have hjl : i + 1 + j < l.length := by
      have := hj
      rw [List.length_drop] at this
      omega
    have := hget ⟨i, hi⟩ ⟨i + 1 + j, hjl⟩ (by simp; omega)
    simpa using this

/-- `sortElevations` of a duplicate-free list is strictly increasing. -/
theorem sortElevations_pairwise (l : List ℚ) (hnd : l.Nodup) :
    (sortElevations l).Pairwise (· < ·) := by
  have hperm : (sortElevations l).Perm l := List.mergeSort_perm l _
  have hnd2 : (sortElevations l).Nodup := (hperm.nodup_iff).mpr hnd
  have hsorted : (sortElevations l).Pairwise (fun a b : ℚ => decide (a ≤ b) = true) := by
    apply List.sorted_mergeSort
    · intro a b c hab hbc
      simp only [decide_eq_true_eq] at hab hbc ⊢
      linarith
    · intro a b
      simp only [Bool.or_eq_true, decide_eq_true_eq]
      exact le_total a b
  have := hsorted.and hnd2
  apply this.imp
  intro a b hab
  obtain ⟨h1, h2⟩ := hab
  simp only [decide_eq_true_eq] at h1
  exact lt_of_le_of_ne h1 h2

theorem goTrunc_nonneg (q : ℚ) (h : 0 ≤ q) : goTrunc q = ⌊q⌋ := by
  unfold goTrunc
  rw [if_neg (not_lt.mpr h), rat_floor_eq]

theorem seaLevelIndex_eq (n : Nat) (L : ℚ) (hn : 0 < n)
    (hL1 : 0 < L) (hL2 : L < 1) :
    seaLevelIndex n L = ⌊(n : ℚ) * (1 - L)⌋ ∧
    0 ≤ ⌊(n : ℚ) * (1 - L)⌋ ∧ ⌊(n : ℚ) * (1 - L)⌋ < n := by
  have hnq : (0 : ℚ) < (n : ℚ) := by exact_mod_cast hn
  have hprod : 0 ≤ (n : ℚ) * (1 - L) := by nlinarith
  have hlt : (n : ℚ) * (1 - L) < (n : ℚ) := by nlinarith
  have hf0 : 0 ≤ ⌊(n : ℚ) * (1 - L)⌋ := Int.floor_nonneg.mpr hprod
  have hfn : ⌊(n : ℚ) * (1 - L)⌋ < (n : Int) := by
    rw [Int.floor_lt]
    push_cast
    exact hlt
  refine ⟨?_, hf0, hfn⟩
  unfold seaLevelIndex
  rw [goTrunc_nonneg _ hprod, if_neg (by omega)]

/-- C3 (amended): whenever the selected working sea level `T` lies
strictly inside `(0, 1)` (the claim's "values approximately in
`[−1, 1]`" does not guarantee this — see the counterexample), every
value of the shaped heightmap lies within `[−6000, 8800]` meters. -/
theorem claim_C3_bounds (heightmap : List (List ℚ)) (L : ℚ)
    (hL1 : 0 < L) (hL2 : L < 1)
    (hT1 : 0 < seaLevelThreshold heightmap L)
    (hT2 : seaLevelThreshold heightmap L < 1) :
    (ApplyHypsometricCurve heightmap L).Forall
      fun row => row.Forall fun v => -6000 ≤ v ∧ v ≤ 8800 := by
  simp only [ApplyHypsometricCurve]
  rw [if_neg (by push_neg; constructor <;> linarith)]
  rw [List.forall_iff_forall_mem]
  intro row hrow
  simp only [List.mem_map] at hrow
  obtain ⟨row0, h0, hroweq⟩ := hrow
  rw [← hroweq, List.forall_iff_forall_mem]
  intro v hv
  simp only [List.mem_map] at hv
  obtain ⟨v0, hv0, hveq⟩ := hv
  rw [← hveq]
  exact hypsoTransform_bounds _ v0 hT1 hT2

theorem c3_threshold_eval : seaLevelThreshold [[-1, -1/2]] (1/2) = -1/2 := by
  norm_num [seaLevelThreshold, sortElevations, flattenElevations, seaLevelIndex,
    goTrunc, rat_floor_eq, List.mergeSort]

/-- C3 (counterexample): the heightmap `[[-1, -1/2]]` has values inside
`[−1, 1]` and `L = 1/2 ∈ (0, 1)`, yet the shaped map's first cell is
−48000 m, far below −6000 m (the selected threshold is negative, so the
ocean-branch ratio is not clamped by the `ratio < 0` guard). -/
theorem claim_C3_counterexample :
    ((ApplyHypsometricCurve [[-1, -1/2]] (1/2)).getD 0 []).getD 0 0 = -48000 ∧
    ((-48000 : ℝ) < -6000) := by
  constructor
  · simp only [ApplyHypsometricCurve]
    rw [if_neg (by norm_num), c3_threshold_eval]
    simp only [List.map_cons, List.map_nil, List.getD_cons_zero]
    simp only [hypsoTransform]
    rw [if_pos (show ((-1 : ℚ)) ≤ -1/2 by norm_num)]
    rw [show ((-1 : ℚ) / (-1/2 : ℚ)) = 2 by norm_num]
    rw [if_neg (by norm_num)]
    rw [show ((2 : ℚ) : ℝ) = ((2 : ℝ)) by norm_num]
    rw [show (3 : ℝ) = ((3 : ℕ) : ℝ) by norm_num, Real.rpow_natCast]
    norm_num
  · norm_num

theorem c3_threshold_eval2 : seaLevelThreshold [[-1/2, 1/2]] (1/2) = 1/2 := by
  norm_num [seaLevelThreshold, sortElevations, flattenElevations, seaLevelIndex,
    goTrunc, rat_floor_eq, List.mergeSort]

/-- Witness for C3's amended statement on the heightmap
`[[-1/2, 1/2]]` with `L = 1/2` (threshold `T = 1/2 ∈ (0, 1)`). -/
theorem claim_C3_witness :
    (ApplyHypsometricCurve [[-1/2, 1/2]] (1/2)).Forall
      (fun row => row.Forall fun v => -6000 ≤ v ∧ v ≤ 8800) :=
  claim_C3_bounds [[-1/2, 1/2]] (1/2) (by norm_num) (by norm_num)
    (by rw [c3_threshold_eval2]; norm_num)
    (by rw [c3_threshold_eval2]; norm_num)

/-- C2 (amended): for every heightmap whose cells are pairwise distinct
and all strictly below 1 (ties or values ≥ 1 break the claim — see the
counterexample), and every `L ∈ (0, 1)`, the number of strictly
positive cells of the shaped map is within one of `L · N`. -/
theorem claim_C2_land_count (heightmap : List (List ℚ)) (L : ℚ)
    (hL1 : 0 < L) (hL2 : L < 1)
    (hne : flattenElevations heightmap ≠ [])
    (hnd : (flattenElevations heightmap).Nodup)
    (hlt : ∀ v ∈ flattenElevations heightmap, v < 1) :
    |(landCount (ApplyHypsometricCurve heightmap L) : ℚ) -
      L * ((flattenElevations heightmap).length : ℚ)| ≤ 1 := by
  set l := flattenElevations heightmap with hl
  set N := l.length with hN
  have hNpos : 0 < N := List.length_pos.mpr hne
  obtain ⟨hidx_eq, hidx0, hidxN⟩ := seaLevelIndex_eq N L hNpos hL1 hL2
  set idx := ⌊(N : ℚ) * (1 - L)⌋ with hidx
  set s := sortElevations l with hs
  have hperm : s.Perm l := List.mergeSort_perm l _
  have hslen : s.length = N := hperm.length_eq
  have hpair : s.Pairwise (· < ·) := sortElevations_pairwise l hnd
  have hidxlt : idx.toNat < s.length := by omega
  set T := seaLevelThreshold heightmap L with hT
  have hTdef : T = s.getD idx.toNat 0 := by
    rw [hT]
    unfold seaLevelThreshold
    rw [← hl, ← hN, hidx_eq, ← hs]
  have hTmem : T ∈ l := by
    rw [hTdef, List.getD_eq_getElem s 0 hidxlt]
    exact hperm.mem_iff.mp (List.getElem_mem hidxlt)
  have hT1 : T < 1 := hlt T hTmem
  have hcount : landCount (ApplyHypsometricCurve heightmap L) =
      (l.filter fun v => decide (T < v)).length := by
    unfold landCount
    simp only [ApplyHypsometricCurve]
    rw [if_neg (by push_neg; constructor <;> linarith)]
    rw [← List.map_flatten]
    have hfl : heightmap.flatten = l := rfl
    rw [hfl]
    rw [← List.countP_eq_length_filter, List.countP_map,
      List.countP_eq_length_filter]
    congr 1
    apply List.filter_congr
    intro v hv
    simp only [Function.comp_apply, decide_eq_decide]
    exact hypsoTransform_pos_iff T v hT1
  rw [hcount]
  have hc2 : (l.filter fun v => decide (T < v)).length =
      (s.filter fun v => decide (T < v)).length := by
    rw [← List.countP_eq_length_filter, ← List.countP_eq_length_filter]
    exact (hperm.countP_eq _).symm
  have hc3 : (s.filter fun v => decide (T < v)).length =
      s.length - idx.toNat - 1 := by
    have h := sorted_count_gt s hpair idx.toNat hidxlt
    rw [← hTdef] at h
    exact h
  rw [hc2, hc3, hslen]
  have hfl := Int.floor_le ((N : ℚ) * (1 - L))
  have hfu := Int.lt_floor_add_one ((N : ℚ) * (1 - L))
  rw [← hidx] at hfl hfu
  have hcast : ((N - idx.toNat - 1 : ℕ) : ℚ) = (N : ℚ) - (idx : ℚ) - 1 := by
    have h2 : ((N - idx.toNat - 1 : ℕ) : Int) = (N : Int) - idx - 1 := by omega
    calc ((N - idx.toNat - 1 : ℕ) : ℚ)
        = (((N - idx.toNat - 1 : ℕ) : Int) : ℚ) := by push_cast; ring
      _ = (((N : Int) - idx - 1 : Int) : ℚ) := by rw [h2]
      _ = (N : ℚ) - (idx : ℚ) - 1 := by push_cast; ring
  rw [hcast, abs_le]
  constructor <;> nlinarith

theorem c2_threshold_eval :
    seaLevelThreshold [[1/2, 1/2, 1/2, 1/2, 1/2, 1/2, 1/2, 1/2, 1/2, 1/2]]
      (1/2) = 1/2 := by
  norm_num [seaLevelThreshold, sortElevations, flattenElevations, seaLevelIndex,
    goTrunc, rat_floor_eq, List.mergeSort]
  rfl

theorem c2_cell_eval : hypsoTransform (1/2) (1/2) = -6000 := by
  simp only [hypsoTransform]
  rw [if_pos (le_refl (1/2 : ℚ))]
  rw [show ((1/2 : ℚ) / (1/2 : ℚ)) = 1 by norm_num]
  rw [if_neg (by norm_num)]
  rw [show ((1 : ℚ) : ℝ) = ((1 : ℝ)) by norm_num]
  rw [Real.one_rpow]
  norm_num

/-- C2 (counterexample): on the heightmap of ten equal cells `1/2` with
`L = 1/2`, the selected threshold equals every cell, the `elevation ≤ T`
branch sends all ten cells below sea level, and the land count is 0
instead of the expected 5 — off by 5 cells, far beyond any one-cell
rounding tolerance. -/
theorem claim_C2_counterexample :
    landCount (ApplyHypsometricCurve
      [[1/2, 1/2, 1/2, 1/2, 1/2, 1/2, 1/2, 1/2, 1/2, 1/2]] (1/2)) = 0 ∧
    (flattenElevations
      [[1/2, 1/2, 1/2, 1/2, 1/2, 1/2, 1/2, 1/2, 1/2, 1/2]]).length = 10 ∧
    ¬(|((0 : ℚ)) - (1/2) * 10| ≤ 1) := by
  refine ⟨?_, by norm_num [flattenElevations], by norm_num⟩
  unfold landCount
  simp only [ApplyHypsometricCurve]
  rw [if_neg (by norm_num), c2_threshold_eval]
  simp only [List.map_cons, List.map_nil, c2_cell_eval, List.flatten]
  norm_num [List.filter]

/-- Witness for C2's amended statement on the five-cell heightmap
`[[-1, -1/2, 0, 1/4, 1/2]]` with `L = 2/5`. -/
theorem claim_C2_witness :
    |(landCount (ApplyHypsometricCurve [[-1, -1/2, 0, 1/4, 1/2]] (2/5)) : ℚ) -
      (2/5) * ((flattenElevations [[-1, -1/2, 0, 1/4, 1/2]]).length : ℚ)| ≤ 1 :=
  claim_C2_land_count [[-1, -1/2, 0, 1/4, 1/2]] (2/5)
    (by norm_num) (by norm_num)
    (by simp [flattenElevations])
    (by norm_num [flattenElevations])
    (by intro v hv
        norm_num [flattenElevations] at hv
        rcases hv with h | h | h | h | h <;> norm_num [h])
